import Mathlib

set_option maxHeartbeats 1000000

/-!
Shallow embedding of the static-analysis (resolver) pass of the rizon
language, translated from `crates/resolver/src/resolver.rs`, together with
theorems checking the natural-language specification against it.

Modelling conventions:
* `EcoString` becomes `String`; `Loc` becomes a pair of naturals.
* Rust `HashMap` becomes an association list where `insert` conses a new
  binding in front (so lookups see the freshest binding, exactly like
  `HashMap::insert` overwriting).  The `locals` output map additionally keeps
  the whole write history this way, which lets us state the monotonicity
  invariant about it.
* `&mut self` methods become state-passing functions
  `... → RState → Result × RState`; the `?` operator becomes an explicit
  match that propagates the error while keeping all state mutations made so
  far, exactly as in Rust.
-/

namespace Rizon

/-- Source location attached by the parser to each AST node. -/
abbrev Loc := Nat × Nat

inductive TokenKind where
  | plus | minus | star | slash | modulo
  | less | greater | lessEqual | greaterEqual
  | equalEqual | bangEqual | bang
  | identKind
deriving DecidableEq, Repr

structure Token where
  kind : TokenKind
  value : String
  loc : Loc
deriving DecidableEq, Repr

mutual
inductive VarType where
  | any | int | float | str | bool | null | void
  | struct (name : String)
  | fn (argsType : VarTypeList) (returnType : VarType)
  | nativeFn
deriving DecidableEq, Repr
inductive VarTypeList where
  | nil
  | cons (head : VarType) (tail : VarTypeList)
deriving DecidableEq, Repr
end

mutual
/-- `Display for VarType` from the source. -/
def VarType.render : VarType → String
  | .any => "any"
  | .int => "int"
  | .float => "float"
  | .str => "str"
  | .bool => "bool"
  | .null => "null"
  | .void => "void"
  | .struct n => n
  | .fn args ret =>
      "fn(" ++ String.intercalate ", " (VarTypeList.renderList args) ++ ") -> " ++ ret.render
  | .nativeFn => "<native fn>"
def VarTypeList.renderList : VarTypeList → List String
  | .nil => []
  | .cons h t => h.render :: VarTypeList.renderList t
end

def VarTypeList.length : VarTypeList → Nat
  | .nil => 0
  | .cons _ t => t.length + 1

def VarTypeList.toList : VarTypeList → List VarType
  | .nil => []
  | .cons h t => h :: t.toList

/-- `VarType::into_fn_return_type` from the source. -/
def VarType.intoFnReturnType : VarType → VarType
  | .fn _ r => r
  | t => t

inductive ResolverWarning where
  | compIntFloat
  | unreachAfterReturn
deriving DecidableEq, Repr

inductive ResolverErr where
  | localVarInOwnInit
  | topLevelReturn
  | selfOutsideStruct
  | returnFromInit
  | directConstructorCall
  | undeclaredVar (name : String)
  | inexistantField (structName : String) (member : String)
  | inexistantConstructor (structName : String)
  | nonStructFieldAccess
  | constructorReturnType
  | unknownType (name : String)
  | alreadyDecl (kind : String)
  | invalidOp (op : String) (lhs : String) (rhs : String)
  | nonBoolBangUnary
  | nonNumMinusUnary
  | unknownOp
  | varNonType
  | wrongTypeAssign (src : String) (dst : String)
  | wrongTypeLogical (lhs : String) (rhs : String)
  | wrongVarType (expected : String)
  | noTypeDeclButReturnOne (t : String)
  | noReturnButDeclOne (t : String)
  | wrongReturnType (decl : String) (got : String)
  | wrongArgsNb (decl : Nat) (got : Nat)
  | wrongArgsType (decl : String) (got : String)
  | nonFnCall
  | warning (w : ResolverWarning)
deriving DecidableEq, Repr

/-- `RevResult<ResolverErr>`: an error kind with an optional location. -/
structure RevRes where
  err : ResolverErr
  loc : Option Loc
deriving DecidableEq, Repr

inductive FnKind where
  | none | function | init | method
deriving DecidableEq, Repr

structure StructTypeDef where
  name : String
  fields : List (String × VarType)
  methods : List (String × VarType)
deriving DecidableEq, Repr

def defaultStructType : StructTypeDef := ⟨"", [], []⟩

/-- Association-list lookup: the first (freshest) binding wins, which is the
observable behaviour of `HashMap::insert` followed by `get`. -/
def lookupA {κ α : Type} [DecidableEq κ] : List (κ × α) → κ → Option α
  | [], _ => none
  | (k, v) :: rest, key => if k = key then some v else lookupA rest key

def containsA {κ α : Type} [DecidableEq κ] (l : List (κ × α)) (key : κ) : Bool :=
  (lookupA l key).isSome

def insertA {κ α : Type} [DecidableEq κ] (l : List (κ × α)) (k : κ) (v : α) : List (κ × α) :=
  (k, v) :: l

/-- One lexical scope.  `vars` is the source's `variables` map (`variables`
is not a usable field name in Lean): name present means declared here, the
Bool is the initialized flag. -/
structure Scope where
  vars : List (String × Bool)
  varTypes : List (String × VarType)
  typesDef : List (String × StructTypeDef)
deriving DecidableEq, Repr

def Scope.empty : Scope := ⟨[], [], []⟩

/-- The `Resolver` struct: globals, the stack of scopes (head = innermost),
the output `locals` map (kept as the full write history, freshest first),
the surrounding function kind, the surrounding structure and the warnings. -/
structure RState where
  globals : Scope
  scopes : List Scope
  locals : List (Loc × Nat)
  fnType : FnKind
  currentStruct : Option String
  warnings : List ResolverWarning
deriving DecidableEq, Repr

def initState : RState := ⟨Scope.empty, [], [], FnKind.none, none, []⟩

/-- A type annotation: either a plain identifier token or a function type
with token leaves (`VarTypeDecl` in the frontend AST). -/
inductive VarTypeDecl where
  | identifier (tk : Token)
  | fnType (paramTypes : List Token) (returnType : Option Token) (loc : Loc)
deriving DecidableEq, Repr

def VarTypeDecl.getLoc : VarTypeDecl → Loc
  | .identifier tk => tk.loc
  | .fnType _ _ l => l

/-- `From<&Token> for VarType`. -/
def varTypeOfToken (tk : Token) : VarType :=
  match tk.value with
  | "any" => .any
  | "int" => .int
  | "float" => .float
  | "str" => .str
  | "bool" => .bool
  | "null" => .null
  | "void" => .void
  | other => .struct other

/-- `From<&Option<Token>> for VarType` (missing means `Void`). -/
def varTypeOfOptToken : Option Token → VarType
  | some t => varTypeOfToken t
  | none => .void

def tokensToTypeList : List Token → VarTypeList
  | [] => .nil
  | t :: r => .cons (varTypeOfToken t) (tokensToTypeList r)

/-- `From<&VarTypeDecl> for VarType`. -/
def varTypeOfDecl : VarTypeDecl → VarType
  | .identifier tk => varTypeOfToken tk
  | .fnType ps r _ => .fn (tokensToTypeList ps) (varTypeOfOptToken r)

/-- `From<&Option<VarTypeDecl>> for VarType` (missing means `Void`). -/
def varTypeOfOptDecl : Option VarTypeDecl → VarType
  | some d => varTypeOfDecl d
  | none => .void

mutual
inductive Expr where
  | intLiteral (value : Int) (loc : Loc)
  | floatLiteral (loc : Loc)
  | strLiteral (value : String) (loc : Loc)
  | identifier (name : String) (loc : Loc)
  | unary (operator : Token) (right : Expr) (loc : Loc)
  | binary (left : Expr) (operator : Token) (right : Expr) (loc : Loc)
  | grouping (inner : Expr) (loc : Loc)
  | assign (name : String) (value : Expr) (loc : Loc)
  | logical (left : Expr) (operator : Token) (right : Expr) (loc : Loc)
  | call (callee : Expr) (args : ExprList) (loc : Loc)
  | getE (object : Expr) (name : Token) (loc : Loc)
  | setE (object : Expr) (name : Token) (value : Expr) (loc : Loc)
  | selfE (name : String) (loc : Loc)
  | isE (left : Expr) (typ : Token) (loc : Loc)
deriving DecidableEq, Repr
inductive ExprList where
  | nil
  | cons (head : Expr) (tail : ExprList)
deriving DecidableEq, Repr
end

def Expr.getLoc : Expr → Loc
  | .intLiteral _ l => l
  | .floatLiteral l => l
  | .strLiteral _ l => l
  | .identifier _ l => l
  | .unary _ _ l => l
  | .binary _ _ _ l => l
  | .grouping _ l => l
  | .assign _ _ l => l
  | .logical _ _ _ l => l
  | .call _ _ l => l
  | .getE _ _ l => l
  | .setE _ _ _ l => l
  | .selfE _ l => l
  | .isE _ _ l => l

def ExprList.length : ExprList → Nat
  | .nil => 0
  | .cons _ t => t.length + 1

/-- `VarDeclStmt`: `var name (: typ)? (= value)?`. -/
structure VarDeclData where
  name : Token
  typ : Option VarTypeDecl
  value : Option Expr
deriving DecidableEq, Repr

/-- A function parameter: a name token and its type annotation. -/
structure Param where
  name : Token
  typ : VarTypeDecl
deriving DecidableEq, Repr

mutual
inductive Stmt where
  | exprStmt (e : Expr)
  | print (e : Expr)
  | varDecl (d : VarDeclData)
  | block (stmts : StmtList)
  | ifStmt (condition : Expr) (thenBranch : OptStmt) (elseBranch : OptStmt)
  | whileStmt (condition : Expr) (body : Stmt)
  | forStmt (placeholder : VarDeclData) (body : Stmt)
  | fnDeclStmt (f : FnDecl)
  | ret (value : Option Expr) (loc : Loc)
  | structDecl (name : Token) (fields : List VarDeclData) (methods : FnList)
deriving DecidableEq, Repr
inductive OptStmt where
  | noneS
  | someS (s : Stmt)
deriving DecidableEq, Repr
inductive StmtList where
  | nil
  | cons (head : Stmt) (tail : StmtList)
deriving DecidableEq, Repr
inductive FnDecl where
  | mk (name : Token) (params : List Param) (returnType : Option VarTypeDecl) (body : StmtList)
deriving DecidableEq, Repr
inductive FnList where
  | nil
  | cons (head : FnDecl) (tail : FnList)
deriving DecidableEq, Repr
end

def FnDecl.name : FnDecl → Token
  | .mk n _ _ _ => n

def FnDecl.params : FnDecl → List Param
  | .mk _ p _ _ => p

def FnDecl.returnType : FnDecl → Option VarTypeDecl
  | .mk _ _ r _ => r

def FnDecl.body : FnDecl → StmtList
  | .mk _ _ _ b => b

def StmtList.length : StmtList → Nat
  | .nil => 0
  | .cons _ t => t.length + 1

def StmtList.append : StmtList → StmtList → StmtList
  | .nil, l => l
  | .cons h t, l => .cons h (t.append l)

/-- `Resolver::set_globals`: the pre-seeded bindings. -/
def setGlobals (s : RState) : RState :=
  let g := s.globals
  let vs := insertA (insertA (insertA (insertA g.vars "true" true) "false" true) "null" true) "clock" true
  let vts := insertA (insertA (insertA (insertA g.varTypes "true" .bool) "false" .bool) "null" .null) "clock" .nativeFn
  let tds := insertA (insertA (insertA (insertA (insertA (insertA g.typesDef "any" defaultStructType) "int" defaultStructType) "float" defaultStructType) "str" defaultStructType) "bool" defaultStructType) "void" defaultStructType
  { s with globals := { g with vars := vs, varTypes := vts, typesDef := tds } }

def beginScope (s : RState) : RState :=
  { s with scopes := Scope.empty :: s.scopes }

def endScope (s : RState) : RState :=
  { s with scopes := s.scopes.tail }

def pushWarning (w : ResolverWarning) (s : RState) : RState :=
  { s with warnings := s.warnings ++ [w] }

/-- The scan of `Resolver::resolve_local`: index of the first scope, innermost
outward, whose `variables[name]` exists and is initialized. -/
def resolveLocalScan (name : String) : Nat → List Scope → Option Nat
  | _, [] => none
  | idx, sc :: rest =>
      match lookupA sc.vars name with
      | some true => some idx
      | _ => resolveLocalScan name (idx + 1) rest

/-- `Resolver::resolve_local`. -/
def resolveLocal (loc : Loc) (name : String) (s : RState) : Except RevRes Unit × RState :=
  match resolveLocalScan name 0 s.scopes with
  | some idx => (.ok (), { s with locals := (loc, idx) :: s.locals })
  | none =>
      if containsA s.globals.vars name then (.ok (), s)
      else (.error ⟨.undeclaredVar name, some loc⟩, s)

/-- `Resolver::declare_name`. -/
def declareName (name : String) (loc : Loc) (declType : String) (s : RState) :
    Except RevRes Unit × RState :=
  match s.scopes with
  | [] =>
      if containsA s.globals.vars name then
        (.error ⟨.alreadyDecl declType, some loc⟩, s)
      else
        (.ok (), { s with globals := { s.globals with vars := insertA s.globals.vars name false } })
  | top :: rest =>
      if containsA top.vars name then
        (.error ⟨.alreadyDecl declType, some loc⟩, s)
      else
        (.ok (), { s with scopes := { top with vars := insertA top.vars name false } :: rest })

/-- `Resolver::define_name`. -/
def defineName (name : String) (s : RState) : RState :=
  match s.scopes with
  | [] => { s with globals := { s.globals with vars := insertA s.globals.vars name true } }
  | top :: rest => { s with scopes := { top with vars := insertA top.vars name true } :: rest }

/-- `Resolver::declare_type`. -/
def declareType (td : StructTypeDef) (loc : Loc) (s : RState) : Except RevRes Unit × RState :=
  match s.scopes with
  | [] =>
      if containsA s.globals.typesDef td.name then
        (.error ⟨.alreadyDecl "type", some loc⟩, s)
      else
        (.ok (), { s with globals :=
          { s.globals with typesDef := insertA s.globals.typesDef td.name td } })
  | top :: rest =>
      if containsA top.typesDef td.name then
        (.error ⟨.alreadyDecl "type", some loc⟩, s)
      else
        (.ok (), { s with scopes :=
          { top with typesDef := insertA top.typesDef td.name td } :: rest })

/-- `Resolver::init_var_type`. -/
def initVarType (name : String) (vt : VarType) (s : RState) : RState :=
  match s.scopes with
  | [] => { s with globals := { s.globals with varTypes := insertA s.globals.varTypes name vt } }
  | top :: rest => { s with scopes := { top with varTypes := insertA top.varTypes name vt } :: rest }

/-- `Resolver::update_var_type`. -/
def updateVarType (name : String) (vt : VarType) (loc : Loc) (s : RState) : RState :=
  match lookupA s.locals loc with
  | some depth =>
      match s.scopes[depth]? with
      | some sc =>
          { s with scopes := s.scopes.set depth { sc with varTypes := insertA sc.varTypes name vt } }
      | none =>
          { s with globals := { s.globals with varTypes := insertA s.globals.varTypes name vt } }
  | none =>
      { s with globals := { s.globals with varTypes := insertA s.globals.varTypes name vt } }

def anyScopeHasType : List Scope → String → Bool
  | [], _ => false
  | sc :: rest, n => containsA sc.typesDef n || anyScopeHasType rest n

/-- `Resolver::check_type_exists`. -/
def checkTypeExists (typeName : String) (loc : Loc) (s : RState) : Except RevRes Unit :=
  if containsA s.globals.typesDef typeName then .ok ()
  else if s.scopes.isEmpty then .error ⟨.unknownType typeName, some loc⟩
  else if anyScopeHasType s.scopes typeName then .ok ()
  else .error ⟨.unknownType typeName, some loc⟩

def getVarTypeScopes : List Scope → String → Option VarType
  | [], _ => none
  | sc :: rest, n =>
      match lookupA sc.varTypes n with
      | some t => some t
      | none =>
          match lookupA sc.typesDef n with
          | some td => some (.struct td.name)
          | none => getVarTypeScopes rest n

/-- `Resolver::get_var_type`. -/
def getVarType (name : String) (loc : Loc) (s : RState) : Except RevRes VarType :=
  match getVarTypeScopes s.scopes name with
  | some t => .ok t
  | none =>
      match lookupA s.globals.varTypes name with
      | some t => .ok t
      | none =>
          match lookupA s.globals.typesDef name with
          | some td => .ok (.struct td.name)
          | none => .error ⟨.varNonType, some loc⟩

def getTypeDefScopes : List Scope → String → Option StructTypeDef
  | [], _ => none
  | sc :: rest, n =>
      match lookupA sc.typesDef n with
      | some td => some td
      | none => getTypeDefScopes rest n

/-- `Resolver::get_type_def`. -/
def getTypeDef (typeName : String) (loc : Loc) (s : RState) : Except RevRes StructTypeDef :=
  match getTypeDefScopes s.scopes typeName with
  | some td => .ok td
  | none =>
      match lookupA s.globals.typesDef typeName with
      | some td => .ok td
      | none => .error ⟨.unknownType typeName, some loc⟩

/-- `StructType::get_member_type`: fields first, then methods. -/
def getMemberType (td : StructTypeDef) (member : Token) : Except RevRes VarType :=
  match lookupA td.fields member.value with
  | some t => .ok t
  | none =>
      match lookupA td.methods member.value with
      | some t => .ok t
      | none => .error ⟨.inexistantField td.name member.value, some member.loc⟩

/-- `Resolver::is_castable`: the sole implicit widening `int → float`. -/
def isCastable : VarType → VarType → Bool
  | .int, .float => true
  | _, _ => false

def paramsToTypeList : List Param → VarTypeList
  | [] => .nil
  | p :: rest => .cons (varTypeOfDecl p.typ) (paramsToTypeList rest)

/-- `Resolver::resolve_fn_type`. -/
def resolveFnTypeOf (f : FnDecl) : VarType :=
  .fn (paramsToTypeList f.params) (varTypeOfOptDecl f.returnType)

/-- The field half of `Resolver::struct_members_types`. -/
def fieldsTypesGo : List VarDeclData → List (String × VarType) →
    Except RevRes (List (String × VarType))
  | [], acc => .ok acc
  | f :: rest, acc =>
      if containsA acc f.name.value then
        .error ⟨.alreadyDecl "field", some f.name.loc⟩
      else
        fieldsTypesGo rest (insertA acc f.name.value
          (match f.typ with | some t => varTypeOfDecl t | none => .any))

/-- The method half of `Resolver::struct_members_types`, also tracking
whether an `init` method was declared. -/
def methodsTypesGo : FnList → List (String × VarType) → Bool →
    Except RevRes (List (String × VarType) × Bool)
  | .nil, acc, hasInit => .ok (acc, hasInit)
  | .cons m rest, acc, hasInit =>
      if containsA acc m.name.value then
        .error ⟨.alreadyDecl "method", some m.name.loc⟩
      else
        methodsTypesGo rest (insertA acc m.name.value (resolveFnTypeOf m))
          (hasInit || m.name.value = "init")

/-- `Resolver::struct_members_types`. -/
def structMembersTypes (fields : List VarDeclData) (methods : FnList) :
    Except RevRes (List (String × VarType) × List (String × VarType)) :=
  match fieldsTypesGo fields [] with
  | .error e => .error e
  | .ok fts =>
      match methodsTypesGo methods [] false with
      | .error e => .error e
      | .ok (mts, hasInit) =>
          if hasInit then .ok (fts, mts)
          else .ok (fts, insertA mts "init" (.fn .nil .void))

/-- The operator dispatch of `visit_binary_expr`, after both operand types
have been collapsed with `into_fn_return_type`. -/
def binaryResult (lhs rhs : VarType) (op : Token) (loc : Loc) (s : RState) :
    Except RevRes VarType × RState :=
  match op.kind with
  | .plus =>
      match lhs, rhs with
      | .int, .int => (.ok .int, s)
      | .int, .float => (.ok .float, s)
      | .float, .int => (.ok .float, s)
      | .float, .float => (.ok .float, s)
      | .str, .str => (.ok .str, s)
      | _, _ => (.error ⟨.invalidOp "+" lhs.render rhs.render, some loc⟩, s)
  | .minus | .slash | .modulo =>
      match lhs, rhs with
      | .int, .int => (.ok .int, s)
      | .int, .float => (.ok .float, s)
      | .float, .int => (.ok .float, s)
      | .float, .float => (.ok .float, s)
      | _, _ => (.error ⟨.invalidOp op.value lhs.render rhs.render, some loc⟩, s)
  | .star =>
      match lhs, rhs with
      | .int, .int => (.ok .int, s)
      | .int, .float => (.ok .float, s)
      | .float, .int => (.ok .float, s)
      | .float, .float => (.ok .float, s)
      | .int, .str => (.ok .str, s)
      | .str, .int => (.ok .str, s)
      | _, _ => (.error ⟨.invalidOp "*" lhs.render rhs.render, some loc⟩, s)
  | .less | .greater | .lessEqual | .greaterEqual =>
      match lhs, rhs with
      | .int, .int => (.ok .bool, s)
      | .float, .float => (.ok .bool, s)
      | .int, .float => (.ok .bool, pushWarning .compIntFloat s)
      | .float, .int => (.ok .bool, pushWarning .compIntFloat s)
      | _, _ => (.error ⟨.invalidOp op.value lhs.render rhs.render, some loc⟩, s)
  | .equalEqual | .bangEqual =>
      match lhs, rhs with
      | .int, .int => (.ok .bool, s)
      | .float, .float => (.ok .bool, s)
      | .str, .str => (.ok .bool, s)
      | .bool, .bool => (.ok .bool, s)
      | .int, .float => (.ok .bool, pushWarning .compIntFloat s)
      | .float, .int => (.ok .bool, pushWarning .compIntFloat s)
      | .struct _, .struct _ => (.ok .bool, s)
      | _, _ => (.error ⟨.invalidOp op.value lhs.render rhs.render, some loc⟩, s)
  | _ => (.error ⟨.unknownOp, some op.loc⟩, s)

/-- The `visit_identifier_expr` guard: the name is declared but not yet
initialized in the innermost scope. -/
def topScopeDeclaredUninit (s : RState) (name : String) : Bool :=
  match s.scopes with
  | [] => false
  | top :: _ => lookupA top.vars name = some false

/-- The callee dispatch of `visit_call_expr`: a struct goes through its
`init` constructor, a function type is used directly, anything else is not
callable. -/
def calleeFnType (t : VarType) (calleeLoc : Loc) (callLoc : Loc) (s : RState) :
    Except RevRes (VarTypeList × VarType) :=
  match t with
  | .struct sn =>
      match getTypeDef sn callLoc s with
      | .error e => .error e
      | .ok td =>
          match lookupA td.methods "init" with
          | none => .error ⟨.inexistantConstructor sn, some callLoc⟩
          | some c =>
              match c with
              | .fn args ret => .ok (args, ret)
              | _ => .error ⟨.inexistantConstructor sn, some callLoc⟩
  | .fn args ret => .ok (args, ret)
  | _ => .error ⟨.nonFnCall, some calleeLoc⟩

/-- The per-argument type check of `visit_call_expr`: the supplied type is
collapsed to its return type unless a function is expected. -/
def checkArgs : List VarType → List VarType → Loc → Except RevRes Unit
  | [], _, _ => .ok ()
  | _, [], _ => .ok ()
  | ca :: cas, ad :: ads, loc =>
      let ca' := match ad with
        | .fn _ _ => ca
        | _ => ca.intoFnReturnType
      if ca' ≠ ad ∧ ¬ isCastable ca' ad then
        .error ⟨.wrongArgsType ad.render ca'.render, some loc⟩
      else
        checkArgs cas ads loc

mutual
/-- `VisitExpr for Resolver`: one case per `visit_*_expr` method. -/
def resolveExpr : Expr → RState → Except RevRes VarType × RState
  | .intLiteral _ _, s => (.ok .int, s)
  | .floatLiteral _, s => (.ok .float, s)
  | .strLiteral _ _, s => (.ok .str, s)
  | .identifier name loc, s =>
      if topScopeDeclaredUninit s name then
        (.error ⟨.localVarInOwnInit, some loc⟩, s)
      else
        match resolveLocal loc name s with
        | (.error er, s1) => (.error er, s1)
        | (.ok _, s1) =>
            match getVarType name loc s1 with
            | .error er => (.error er, s1)
            | .ok t => (.ok t, s1)
  | .unary op r _, s =>
      match resolveExpr r s with
      | (.error er, s1) => (.error er, s1)
      | (.ok vt, s1) =>
          match op.kind with
          | .minus =>
              if vt ≠ .int ∧ vt ≠ .float then
                (.error ⟨.nonNumMinusUnary, some r.getLoc⟩, s1)
              else (.ok vt, s1)
          | .bang =>
              if vt ≠ .bool then
                (.error ⟨.nonBoolBangUnary, some r.getLoc⟩, s1)
              else (.ok vt, s1)
          | _ => (.ok vt, s1)
  | .binary l op r loc, s =>
      match resolveExpr l s with
      | (.error er, s1) => (.error er, s1)
      | (.ok lt0, s1) =>
          match resolveExpr r s1 with
          | (.error er, s2) => (.error er, s2)
          | (.ok rt0, s2) =>
              binaryResult lt0.intoFnReturnType rt0.intoFnReturnType op loc s2
  | .grouping inner _, s => resolveExpr inner s
  | .assign name value loc, s =>
      match resolveLocal loc name s with
      | (.error er, s1) => (.error er, s1)
      | (.ok _, s1) =>
          match resolveExpr value s1 with
          | (.error er, s2) => (.error er, s2)
          | (.ok _, s2) =>
              match getVarType name loc s2 with
              | .error er => (.error er, s2)
              | .ok lhsType =>
                  match resolveExpr value s2 with
                  | (.error er, s3) => (.error er, s3)
                  | (.ok valueType, s3) =>
                      if lhsType ≠ valueType then
                        if lhsType = .any then
                          (.ok lhsType, updateVarType name valueType loc s3)
                        else if ¬ isCastable valueType lhsType then
                          (.error ⟨.wrongTypeAssign valueType.render lhsType.render,
                            some value.getLoc⟩, s3)
                        else (.ok lhsType, s3)
                      else (.ok lhsType, s3)
  | .logical l _ r loc, s =>
      match resolveExpr r s with
      | (.error er, s1) => (.error er, s1)
      | (.ok rhsT, s1) =>
          match resolveExpr l s1 with
          | (.error er, s2) => (.error er, s2)
          | (.ok lhsT, s2) =>
              if lhsT ≠ rhsT then
                (.error ⟨.wrongTypeLogical lhsT.render lhsT.render, some loc⟩, s2)
              else (.ok rhsT, s2)
  | .call callee args loc, s =>
      match resolveExpr callee s with
      | (.error er, s1) => (.error er, s1)
      | (.ok calleeType, s1) =>
          match resolveExprList args s1 with
          | (.error er, s2) => (.error er, s2)
          | (.ok callArgs, s2) =>
              match calleeFnType calleeType callee.getLoc loc s2 with
              | .error er => (.error er, s2)
              | .ok (argsDecl, _) =>
                  if argsDecl.length ≠ args.length then
                    (.error ⟨.wrongArgsNb argsDecl.length args.length, some loc⟩, s2)
                  else
                    match checkArgs callArgs argsDecl.toList loc with
                    | .error er => (.error er, s2)
                    | .ok _ =>
                        match resolveArgsEach args s2 with
                        | (.error er, s3) => (.error er, s3)
                        | (.ok _, s3) => (.ok calleeType.intoFnReturnType, s3)
  | .getE obj name loc, s =>
      if name.value = "init" then
        (.error ⟨.directConstructorCall, some loc⟩, s)
      else
        match resolveExpr obj s with
        | (.error er, s1) => (.error er, s1)
        | (.ok objT, s1) =>
            match objT with
            | .struct sn =>
                match getTypeDef sn loc s1 with
                | .error er => (.error er, s1)
                | .ok td => (getMemberType td name, s1)
            | _ => (.error ⟨.nonStructFieldAccess, some loc⟩, s1)
  | .setE obj name value loc, s =>
      match resolveExpr obj s with
      | (.error er, s1) => (.error er, s1)
      | (.ok objT, s1) =>
          match resolveExpr value s1 with
          | (.error er, s2) => (.error er, s2)
          | (.ok valT, s2) =>
              match objT with
              | .struct sn =>
                  match getTypeDef sn loc s2 with
                  | .error er => (.error er, s2)
                  | .ok td =>
                      match getMemberType td name with
                      | .error er => (.error er, s2)
                      | .ok mt =>
                          if mt ≠ valT ∧ ¬ isCastable valT mt then
                            (.error ⟨.wrongTypeAssign valT.render mt.render,
                              some value.getLoc⟩, s2)
                          else (.ok objT, s2)
              | _ => (.error ⟨.nonStructFieldAccess, some loc⟩, s2)
  | .selfE name loc, s =>
      match s.currentStruct with
      | none => (.error ⟨.selfOutsideStruct, some loc⟩, s)
      | some cs =>
          match resolveLocal loc name s with
          | (.error er, s1) => (.error er, s1)
          | (.ok _, s1) => (.ok (.struct cs), s1)
  | .isE l typ loc, s =>
      match resolveExpr l s with
      | (.error er, s1) => (.error er, s1)
      | (.ok lt, s1) =>
          match checkTypeExists typ.value loc s1 with
          | .error er => (.error er, s1)
          | .ok _ =>
              let rt := varTypeOfToken typ
              if lt ≠ rt then
                (.error ⟨.wrongVarType rt.render, some l.getLoc⟩, s1)
              else (.ok .bool, s1)
/-- The first pass over call arguments: `args.iter().map(accept).collect()`. -/
def resolveExprList : ExprList → RState → Except RevRes (List VarType) × RState
  | .nil, s => (.ok [], s)
  | .cons e rest, s =>
      match resolveExpr e s with
      | (.error er, s1) => (.error er, s1)
      | (.ok t, s1) =>
          match resolveExprList rest s1 with
          | (.error er, s2) => (.error er, s2)
          | (.ok ts, s2) => (.ok (t :: ts), s2)
/-- The second pass over call arguments: `args.iter().try_for_each(...)`. -/
def resolveArgsEach : ExprList → RState → Except RevRes Unit × RState
  | .nil, s => (.ok (), s)
  | .cons e rest, s =>
      match resolveExpr e s with
      | (.error er, s1) => (.error er, s1)
      | (.ok _, s1) => resolveArgsEach rest s1
end

/-- The `param_types.iter().try_for_each(check_type_exists)` loop of
`visit_var_decl_stmt` for a `Fn` annotation. -/
def checkTypeTokens : List Token → RState → Except RevRes Unit
  | [], _ => .ok ()
  | t :: rest, s =>
      match checkTypeExists t.value t.loc s with
      | .error e => .error e
      | .ok _ => checkTypeTokens rest s

/-- The `define_name` + `init_var_type` tail of a variable declaration. -/
def defineAndInit (name : String) (vt : VarType) (s : RState) : RState :=
  initVarType name vt (defineName name s)

/-- `visit_var_decl_stmt` (also run on the `for` placeholder). -/
def resolveVarDecl (d : VarDeclData) (s : RState) : Except RevRes Unit × RState :=
  match declareName d.name.value d.name.loc "variable" s with
  | (.error e, s1) => (.error e, s1)
  | (.ok _, s1) =>
      let ft? : Except RevRes VarType :=
        match d.typ with
        | some (.identifier i) =>
            match checkTypeExists i.value i.loc s1 with
            | .error e => .error e
            | .ok _ => .ok (varTypeOfToken i)
        | some (.fnType ps r ℓ) =>
            match (match r with
              | some rr => checkTypeExists rr.value rr.loc s1
              | none => .ok ()) with
            | .error e => .error e
            | .ok _ =>
                match checkTypeTokens ps s1 with
                | .error e => .error e
                | .ok _ => .ok (varTypeOfDecl (.fnType ps r ℓ))
        | none => .ok .any
      match ft? with
      | .error e => (.error e, s1)
      | .ok ft =>
          match d.value with
          | some v =>
              match resolveExpr v s1 with
              | (.error e, s2) => (.error e, s2)
              | (.ok valueType, s2) =>
                  if ft ≠ .any ∧ ft ≠ valueType then
                    if ¬ isCastable valueType ft then
                      (.error ⟨.wrongTypeAssign valueType.render ft.render, some v.getLoc⟩, s2)
                    else
                      (.ok (), defineAndInit d.name.value ft s2)
                  else
                    (.ok (), defineAndInit d.name.value valueType s2)
          | none => (.ok (), defineAndInit d.name.value ft s1)

/-- The parameter loop of `resolve_fn`: declare, define and type each
parameter (errors are reported at the function name's location). -/
def declareParams : List Param → Token → RState → Except RevRes Unit × RState
  | [], _, s => (.ok (), s)
  | p :: rest, nameTok, s =>
      match declareName p.name.value nameTok.loc "variable" s with
      | (.error e, s1) => (.error e, s1)
      | (.ok _, s1) =>
          declareParams rest nameTok (initVarType p.name.value (varTypeOfDecl p.typ) (defineName p.name.value s1))

/-- `self.scopes.last_mut().unwrap().variables.insert("self", true)` in
`visit_struct_stmt` (always called right after `begin_scope`). -/
def insertSelf (s : RState) : RState :=
  match s.scopes with
  | [] => s
  | top :: rest => { s with scopes := { top with vars := insertA top.vars "self" true } :: rest }

/-- The location of `stmt.return_type.as_ref().unwrap().get_loc()`. -/
def optDeclLoc : Option VarTypeDecl → Option Loc
  | some d => some d.getLoc
  | none => none

mutual
/-- `VisitStmt for Resolver`: one case per `visit_*_stmt` method. -/
def resolveStmt : Stmt → RState → Except RevRes Unit × RState
  | .exprStmt e, s =>
      (match resolveExpr e s with
        | (.error er, s') => (.error er, s')
        | (.ok _, s') => (.ok (), s'))
  | .print e, s =>
      (match resolveExpr e s with
        | (.error er, s') => (.error er, s')
        | (.ok _, s') => (.ok (), s'))
  | .varDecl d, s => resolveVarDecl d s
  | .block stmts, s =>
      (match resolveStmts stmts (beginScope s) with
        | (.error er, s') => (.error er, s')
        | (.ok _, s') => (.ok (), endScope s'))
  | .ifStmt c t e, s =>
      (match resolveExpr c s with
        | (.error er, s1) => (.error er, s1)
        | (.ok _, s1) =>
            match resolveOptStmt t s1 with
            | (.error er, s2) => (.error er, s2)
            | (.ok _, s2) => resolveOptStmt e s2)
  | .whileStmt c b, s =>
      (match resolveExpr c s with
        | (.error er, s1) => (.error er, s1)
        | (.ok _, s1) => resolveStmt b s1)
  | .forStmt ph b, s =>
      (match resolveVarDecl ph (beginScope s) with
        | (.error er, s2) => (.error er, s2)
        | (.ok _, s2) =>
            match resolveStmt b (initVarType ph.name.value .int s2) with
            | (.error er, s4) => (.error er, s4)
            | (.ok _, s4) => (.ok (), endScope s4))
  | .fnDeclStmt f, s =>
      (match declareName f.name.value f.name.loc "function" s with
        | (.error er, s1) => (.error er, s1)
        | (.ok _, s1) =>
            resolveFn f .function (initVarType f.name.value (resolveFnTypeOf f) (defineName f.name.value s1)))
  | .ret v loc, s =>
      (match s.fnType with
        | .none => (.error ⟨.topLevelReturn, some loc⟩, s)
        | .init => (.error ⟨.returnFromInit, some loc⟩, s)
        | _ =>
            match v with
            | some ve =>
                (match resolveExpr ve s with
                  | (.error er, s') => (.error er, s')
                  | (.ok _, s') => (.ok (), s'))
            | none => (.ok (), s))
  | .structDecl name fields methods, s =>
      (match declareName name.value name.loc "structure" { s with currentStruct := some name.value } with
        | (.error er, s1) => (.error er, s1)
        | (.ok _, s1) =>
            let s2 := defineName name.value s1
            match structMembersTypes fields methods with
            | .error er => (.error er, s2)
            | .ok (fts, mts) =>
                match declareType ⟨name.value, fts, mts⟩ name.loc s2 with
                | (.error er, s3) => (.error er, s3)
                | (.ok _, s3) =>
                    match resolveMethods methods (insertSelf (beginScope s3)) with
                    | (.error er, s5) => (.error er, s5)
                    | (.ok _, s5) => (.ok (), { endScope s5 with currentStruct := none }))
def resolveOptStmt : OptStmt → RState → Except RevRes Unit × RState
  | .noneS, s => (.ok (), s)
  | .someS st, s => resolveStmt st s
/-- `try_for_each` over the statements of a block. -/
def resolveStmts : StmtList → RState → Except RevRes Unit × RState
  | .nil, s => (.ok (), s)
  | .cons st rest, s =>
      match resolveStmt st s with
      | (.error er, s') => (.error er, s')
      | (.ok _, s') => resolveStmts rest s'
/-- `Resolver::resolve_fn`. -/
def resolveFn : FnDecl → FnKind → RState → Except RevRes Unit × RState
  | .mk nameTok params retT body, typ, s =>
      if typ = FnKind.init ∧ retT.isSome then
        (.error ⟨.constructorReturnType, optDeclLoc retT⟩, s)
      else
        let prev := s.fnType
        match declareParams params nameTok (beginScope { s with fnType := typ }) with
        | (.error er, s2) => (.error er, s2)
        | (.ok _, s2) =>
            match resolveFnBody body none (0, 0) s2 with
            | ((.error er, _, _), s3) => (.error er, s3)
            | ((.ok _, rt, tmpLoc), s3) =>
                match rt, retT with
                | some r1, some r2 =>
                    let dr := varTypeOfDecl r2
                    if r1 ≠ dr then
                      (.error ⟨.wrongReturnType dr.render r1.render, some tmpLoc⟩, s3)
                    else (.ok (), { endScope s3 with fnType := prev })
                | none, some r =>
                    if varTypeOfDecl r ≠ .void then
                      (.error ⟨.noReturnButDeclOne (varTypeOfDecl r).render, some r.getLoc⟩, s3)
                    else (.ok (), { endScope s3 with fnType := prev })
                | some r, none =>
                    if r ≠ .void then
                      (.error ⟨.noTypeDeclButReturnOne r.render, some tmpLoc⟩, s3)
                    else (.ok (), { endScope s3 with fnType := prev })
                | none, none => (.ok (), { endScope s3 with fnType := prev })
/-- The body fold of `resolve_fn`, carrying the observed `return_type` and
`tmp_loc` of the closure. -/
def resolveFnBody : StmtList → Option VarType → Loc → RState →
    (Except RevRes Unit × Option VarType × Loc) × RState
  | .nil, rt, tl, s => ((.ok (), rt, tl), s)
  | .cons st rest, rt, tl, s =>
      let s0 := if rt.isSome then pushWarning .unreachAfterReturn s else s
      match st with
      | .ret (some v) _ =>
          (match resolveExpr v s0 with
            | (.error er, s1) => ((.error er, rt, tl), s1)
            | (.ok t, s1) =>
                match resolveStmt st s1 with
                | (.error er, s2) => ((.error er, some t, v.getLoc), s2)
                | (.ok _, s2) => resolveFnBody rest (some t) v.getLoc s2)
      | _ =>
          (match resolveStmt st s0 with
            | (.error er, s1) => ((.error er, rt, tl), s1)
            | (.ok _, s1) => resolveFnBody rest rt tl s1)
/-- The method loop of `visit_struct_stmt`. -/
def resolveMethods : FnList → RState → Except RevRes Unit × RState
  | .nil, s => (.ok (), s)
  | .cons m rest, s =>
      match resolveFn m (if m.name.value = "init" then FnKind.init else FnKind.method) s with
      | (.error er, s') => (.error er, s')
      | (.ok _, s') => resolveMethods rest s'
end

/-- The top-level loop of `Resolver::resolve`: one collected error per
failing top-level statement. -/
def resolveTop : StmtList → List RevRes → RState → List RevRes × RState
  | .nil, errs, s => (errs, s)
  | .cons st rest, errs, s =>
      match resolveStmt st s with
      | (.ok _, s') => resolveTop rest errs s'
      | (.error e, s') => resolveTop rest (errs ++ [e]) s'

/-- `Resolver::resolve`: the public entry point. -/
def resolve (stmts : StmtList) (s : RState) :
    Except (List RevRes) (List (Loc × Nat)) × RState :=
  match resolveTop stmts [] (setGlobals s) with
  | (errs, s') => if errs = [] then (.ok s'.locals, s') else (.error errs, s')

/-! ### Specification-side definitions -/

mutual
/-- The resolvable nodes (location, name) of an expression: identifier uses,
assignment targets and `self`, i.e. exactly the places that can call
`resolve_local`. -/
def rnodesE : Expr → List (Loc × String)
  | .intLiteral _ _ => []
  | .floatLiteral _ => []
  | .strLiteral _ _ => []
  | .identifier name loc => [(loc, name)]
  | .unary _ r _ => rnodesE r
  | .binary l _ r _ => rnodesE l ++ rnodesE r
  | .grouping inner _ => rnodesE inner
  | .assign name value loc => (loc, name) :: rnodesE value
  | .logical l _ r _ => rnodesE l ++ rnodesE r
  | .call callee args _ => rnodesE callee ++ rnodesEL args
  | .getE obj _ _ => rnodesE obj
  | .setE obj _ value _ => rnodesE obj ++ rnodesE value
  | .selfE name loc => [(loc, name)]
  | .isE l _ _ => rnodesE l
def rnodesEL : ExprList → List (Loc × String)
  | .nil => []
  | .cons e rest => rnodesE e ++ rnodesEL rest
end

def rnodesVD (d : VarDeclData) : List (Loc × String) :=
  match d.value with
  | some v => rnodesE v
  | none => []

mutual
/-- The resolvable nodes of a statement (struct fields are never resolved,
only method bodies are). -/
def rnodesS : Stmt → List (Loc × String)
  | .exprStmt e => rnodesE e
  | .print e => rnodesE e
  | .varDecl d => rnodesVD d
  | .block sl => rnodesSL sl
  | .ifStmt c t e => rnodesE c ++ rnodesOpt t ++ rnodesOpt e
  | .whileStmt c b => rnodesE c ++ rnodesS b
  | .forStmt ph b => rnodesVD ph ++ rnodesS b
  | .fnDeclStmt f => rnodesFn f
  | .ret v _ => (match v with | some ve => rnodesE ve | none => [])
  | .structDecl _ _ methods => rnodesFnList methods
def rnodesOpt : OptStmt → List (Loc × String)
  | .noneS => []
  | .someS st => rnodesS st
def rnodesSL : StmtList → List (Loc × String)
  | .nil => []
  | .cons st rest => rnodesS st ++ rnodesSL rest
def rnodesFn : FnDecl → List (Loc × String)
  | .mk _ _ _ body => rnodesSL body
def rnodesFnList : FnList → List (Loc × String)
  | .nil => []
  | .cons f rest => rnodesFn f ++ rnodesFnList rest
end

/-- A locals write history is consistent when two entries for the same
location always carry the same depth. -/
def traceOK (tr : List (Loc × Nat)) : Prop :=
  tr.Pairwise (fun p q => p.1 = q.1 → p.2 = q.2)

/-- Per-statement outcomes of the top-level loop: `none` when the statement
resolved, `some e` when it failed with `e`; the walker continues either way. -/
def seqOutcomes : StmtList → RState → List (Option RevRes) × RState
  | .nil, s => ([], s)
  | .cons st rest, s =>
      match resolveStmt st s with
      | (.ok _, s') =>
          (match seqOutcomes rest s' with
            | (outs, s'') => (none :: outs, s''))
      | (.error e, s') =>
          (match seqOutcomes rest s' with
            | (outs, s'') => (some e :: outs, s''))

/-- How often the unreachable-code warning occurs in a warning list. -/
def countUnreach (ws : List ResolverWarning) : Nat :=
  ws.count .unreachAfterReturn

/-- A literal expression, used to quantify over function bodies made of
`return <literal>` statements. -/
inductive Lit where
  | i (n : Int) (loc : Loc)
  | f (loc : Loc)
  | st (v : String) (loc : Loc)
deriving DecidableEq, Repr

def Lit.toExpr : Lit → Expr
  | .i n l => .intLiteral n l
  | .f l => .floatLiteral l
  | .st v l => .strLiteral v l

def Lit.type : Lit → VarType
  | .i _ _ => .int
  | .f _ => .float
  | .st _ _ => .str

def Lit.loc : Lit → Loc
  | .i _ l => l
  | .f l => l
  | .st _ l => l

/-- Shorthand for an identifier token. -/
def tk (n : String) (l : Loc) : Token := ⟨.identKind, n, l⟩

/-- The state components preserved by expression resolution, together with the
characterisation of the locals writes an expression may perform: writes only
happen at resolvable nodes drawn from `R` and always record the scan depth
taken in the entry state's scope shape. -/
def StepIn (R : List (Loc × String)) (s s' : RState) : Prop :=
  s'.scopes.map Scope.vars = s.scopes.map Scope.vars ∧
  s'.globals.vars = s.globals.vars ∧
  s'.fnType = s.fnType ∧
  s'.currentStruct = s.currentStruct ∧
  (∃ w, s'.warnings = s.warnings ++ w) ∧
  (∃ new, s'.locals = new ++ s.locals ∧
    ∀ p : Loc × Nat, p ∈ new →
      ∃ nm, (p.1, nm) ∈ R ∧ resolveLocalScan nm 0 s.scopes = some p.2)

/-- What a statement visit may do to the warnings and the locals write
history: both only grow, the new locals writes stay within the statement's
resolvable locations, and — provided those locations are duplicate-free and
fresh — a consistent history stays consistent. -/
def SStep (R : List (Loc × String)) (s s' : RState) : Prop :=
  (∃ w, s'.warnings = s.warnings ++ w) ∧
  ∃ new, s'.locals = new ++ s.locals ∧
    (∀ p : Loc × Nat, p ∈ new → p.1 ∈ R.map Prod.fst) ∧
    ((R.map Prod.fst).Nodup →
      (∀ ℓ ∈ R.map Prod.fst, ∀ d : Nat, (ℓ, d) ∉ s.locals) →
      traceOK s.locals → traceOK s'.locals)

/-- `fn f() { return  var a }`: a statement follows a value-less return. -/
def c6Prog : StmtList :=
  .cons (.fnDeclStmt (.mk (tk "f" (1, 3)) [] none
    (.cons (.ret none (2, 4)) (.cons (.varDecl ⟨tk "a" (3, 8), none, none⟩) .nil)))) .nil

/-- `fn f(b: bool) {}  f(1 < 1.0)`: the single call argument emits one
`CompIntFloat` warning per visit. -/
def c10Prog : StmtList :=
  .cons (.fnDeclStmt (.mk (tk "f" (1, 3)) [⟨tk "b" (1, 5), .identifier (tk "bool" (1, 8))⟩]
    none .nil)) (
  .cons (.exprStmt (.call (.identifier "f" (2, 0))
    (.cons (.binary (.intLiteral 1 (2, 2)) ⟨.less, "<", (2, 4)⟩ (.floatLiteral (2, 6)) (2, 3))
      .nil) (2, 1))) .nil)

/-- A state with one global `a : int`. -/
def sVarInt : RState := { initState with globals := ⟨[("a", true)], [("a", .int)], []⟩ }

/-- A state with one global `g : fn(int) -> void`. -/
def sFnG : RState :=
  { initState with globals := ⟨[("g", true)], [("g", .fn (.cons .int .nil) .void)], []⟩ }

/-- A state with one global structure `Foo` whose only method is the
synthesized `init : fn() -> void`. -/
def sFoo : RState :=
  { initState with globals :=
    ⟨[("Foo", true)], [], [("Foo", ⟨"Foo", [], [("init", .fn .nil .void)]⟩)]⟩ }

/-- Does a method list lack a declared `init` method entirely? -/
def noInitMethod : FnList → Bool
  | .nil => true
  | .cons m rest => (m.name.value != "init") && noInitMethod rest

/-- `var a  { var b = a }`: a program with duplicate-free resolvable node
locations. -/
def c5Prog : StmtList :=
  .cons (.varDecl ⟨tk "a" (1, 4), none, none⟩) (
  .cons (.block (.cons (.varDecl ⟨tk "b" (2, 8), none, some (.identifier "a" (2, 12))⟩) .nil))
    .nil)

/-- A program whose first statement is a function declaration with a failing
body, followed by a top-level `return`, then a structure declaration with a
failing method body, then a top-level `self`. -/
def c9Prog : StmtList :=
  .cons (.fnDeclStmt (.mk (tk "f" (1, 3)) [] none
    (.cons (.exprStmt (.identifier "x" (1, 10))) .nil))) (
  .cons (.ret none (2, 0)) (
  .cons (.structDecl (tk "Foo" (3, 7)) []
    (.cons (.mk (tk "m" (4, 7)) [] none
      (.cons (.exprStmt (.identifier "y" (4, 14))) .nil)) .nil)) (
  .cons (.exprStmt (.selfE "self" (5, 0))) .nil)))

/-- `fn f() -> int { return 1  return "x" }`: the first return type matches
the declaration, the second does not. -/
def c2Prog : StmtList :=
  .cons (.fnDeclStmt (.mk (tk "f" (1, 3)) [] (some (.identifier (tk "int" (1, 9))))
    (.cons (.ret (some (.intLiteral 1 (2, 11))) (2, 4)) (
     .cons (.ret (some (.strLiteral "x" (3, 11))) (3, 4)) .nil)))) .nil

/-- A function body consisting of two `return <literal>` statements. -/
def twoRetBody (v1 v2 : Lit) (l1 l2 : Loc) : StmtList :=
  .cons (.ret (some v1.toExpr) l1) (.cons (.ret (some v2.toExpr) l2) .nil)

/-- The state with its warnings list replaced: the device for stating that
nothing in the resolver ever reads the warnings it accumulates. -/
def withW (w : List ResolverWarning) (s : RState) : RState :=
  { s with warnings := w }

/-- `return 1  var a`: a function body whose trailing statement follows a
valued return. -/
def c6Body : StmtList :=
  .cons (.ret (some (.intLiteral 1 (1, 9))) (1, 2))
    (.cons (.varDecl ⟨tk "a" (2, 6), none, none⟩) .nil)

/-- A state as it stands inside the body fold of `resolve_fn`: one open
scope and a surrounding function. -/
def c6In : RState := { initState with fnType := .function, scopes := [Scope.empty] }

/-- The state after folding `c6Body` from `c6In`. -/
def c6BodyOut : RState := (resolveFnBody c6Body none (0, 0) c6In).2

/-- The state after resolving `c6Prog` from scratch. -/
def c6OutState : RState := (resolve c6Prog initState).2

-- THEOREMS START

/-! ### C3: resolve_local -/

theorem resolveLocalScan_findIdx (name : String) :
    ∀ (scopes : List Scope) (idx : Nat),
      resolveLocalScan name idx scopes =
        scopes.findIdx? (fun sc => lookupA sc.vars name == some true) idx
  | [], _ => rfl
  | sc :: rest, idx => by
      rw [resolveLocalScan, List.findIdx?_cons]
      rcases h : lookupA sc.vars name with _ | b
      · simp [h, resolveLocalScan_findIdx name rest (idx + 1)]
      · cases b <;> simp [h, resolveLocalScan_findIdx name rest (idx + 1)]

/-- **C3.** `resolve_local(loc, name)` searches the scope stack from the
innermost scope outward; at the first scope whose `variables[name]` is
initialized it records `locals[loc] = distance-from-top` and succeeds; if no
inner scope matches and `name` is among the global variables it succeeds
without recording; otherwise it fails with `UndeclaredVar(name)`. -/
theorem resolveLocal_spec (loc : Loc) (name : String) (s : RState) :
    resolveLocal loc name s =
      match s.scopes.findIdx? (fun sc => lookupA sc.vars name == some true) 0 with
      | some d => (.ok (), { s with locals := (loc, d) :: s.locals })
      | none =>
          if containsA s.globals.vars name then (.ok (), s)
          else (.error ⟨.undeclaredVar name, some loc⟩, s) := by
  rw [resolveLocal, resolveLocalScan_findIdx]

/-! ### C4: the top-level error loop -/

theorem resolveTop_seqOutcomes :
    ∀ (stmts : StmtList) (errs : List RevRes) (s : RState),
      resolveTop stmts errs s =
        (errs ++ (seqOutcomes stmts s).1.filterMap id, (seqOutcomes stmts s).2)
  | .nil, errs, s => by simp [resolveTop, seqOutcomes]
  | .cons st rest, errs, s => by
      rw [resolveTop, seqOutcomes]
      rcases h : resolveStmt st s with ⟨r, s'⟩
      rcases r with e | u
      · rcases hrec : seqOutcomes rest s' with ⟨outs, s''⟩
        simpa [hrec] using resolveTop_seqOutcomes rest (errs ++ [e]) s'
      · rcases hrec : seqOutcomes rest s' with ⟨outs, s''⟩
        simpa [hrec] using resolveTop_seqOutcomes rest errs s'

/-- **C4.** `resolve(stmts)` visits each top-level statement in order,
collects exactly one error per failing top-level statement while continuing
with the next, and returns `Err(vector)` exactly when at least one top-level
statement failed, `Ok(locals)` otherwise. -/
theorem resolve_spec (stmts : StmtList) (s : RState) :
    (resolve stmts s =
      ((if ((seqOutcomes stmts (setGlobals s)).1.filterMap id).isEmpty
        then .ok ((seqOutcomes stmts (setGlobals s)).2).locals
        else .error ((seqOutcomes stmts (setGlobals s)).1.filterMap id)),
        (seqOutcomes stmts (setGlobals s)).2)) ∧
    ((∃ errs, (resolve stmts s).1 = .error errs) ↔
      ∃ o ∈ (seqOutcomes stmts (setGlobals s)).1, o ≠ none) := by
  have h := resolveTop_seqOutcomes stmts [] (setGlobals s)
  constructor
  · rw [resolve, h]
    rcases hout : ((seqOutcomes stmts (setGlobals s)).1.filterMap id) with _ | ⟨e, es⟩ <;>
      simp [hout]
  · rw [resolve, h]
    rcases hout : ((seqOutcomes stmts (setGlobals s)).1.filterMap id) with _ | ⟨e, es⟩
    · rw [List.filterMap_eq_nil_iff] at hout
      simp only [List.nil_append, List.isEmpty_nil, if_pos rfl]
      constructor
      · rintro ⟨errs, herrs⟩; cases herrs
      · rintro ⟨o, ho, hne⟩; exact absurd (hout o ho) hne
    · simp only [List.nil_append, hout]
      have : e :: es ≠ [] := by simp
      rw [if_neg this]
      constructor
      · rintro -
        by_contra hall
        push_neg at hall
        have : (seqOutcomes stmts (setGlobals s)).1.filterMap id = [] :=
          List.filterMap_eq_nil_iff.mpr (by intro a ha; simpa using hall a ha)
        rw [hout] at this; cases this
      · intro _; exact ⟨e :: es, rfl⟩

/-! ### C9: fn_kind and current_struct are not restored on error paths -/

/-- **C9.** When resolving the body of a function or structure declaration
fails, `fn_kind` and `current_struct` are not restored: in `c9Prog` the
function body and the method body both fail with `UndeclaredVar`, yet the
top-level `return` after the failing function produces no `TopLevelReturn`
and the top-level `self` after the failing structure produces no
`SelfOutsideStruct` — the only errors are the two `UndeclaredVar`s — and the
final walker state still carries `fn_kind = Method` and
`current_struct = Some("Foo")`. -/
theorem fnKind_not_restored_on_error :
    (resolve c9Prog initState).1 =
      .error [⟨.undeclaredVar "x", some (1, 10)⟩, ⟨.undeclaredVar "y", some (4, 14)⟩] ∧
    (resolve c9Prog initState).2.fnType = FnKind.method ∧
    (resolve c9Prog initState).2.currentStruct = some "Foo" :=
  ⟨rfl, rfl, rfl⟩

/-! ### The expression-step invariant -/

theorem resolveLocalScan_shape (nm : String) :
    ∀ (idx : Nat) (sc1 sc2 : List Scope),
      sc1.map Scope.vars = sc2.map Scope.vars →
      resolveLocalScan nm idx sc1 = resolveLocalScan nm idx sc2
  | _, [], [], _ => rfl
  | idx, a :: l1, b :: l2, h => by
      rw [List.map_cons, List.map_cons, List.cons.injEq] at h
      rw [resolveLocalScan, resolveLocalScan, h.1,
        resolveLocalScan_shape nm (idx + 1) l1 l2 h.2]

theorem StepIn.reflIn (R : List (Loc × String)) (s : RState) : StepIn R s s :=
  ⟨rfl, rfl, rfl, rfl, ⟨[], by simp⟩, ⟨[], by simp⟩⟩

theorem StepIn.monoIn {R R' : List (Loc × String)} {s s' : RState}
    (hsub : R ⊆ R') (h : StepIn R s s') : StepIn R' s s' := by
  obtain ⟨h1, h2, h3, h4, h5, new, hn, hc⟩ := h
  exact ⟨h1, h2, h3, h4, h5, new, hn, fun p hp => by
    obtain ⟨nm, hnm, hscan⟩ := hc p hp
    exact ⟨nm, hsub hnm, hscan⟩⟩

theorem StepIn.trans {R : List (Loc × String)} {s s1 s2 : RState}
    (h : StepIn R s s1) (h' : StepIn R s1 s2) : StepIn R s s2 := by
  obtain ⟨a1, a2, a3, a4, ⟨w1, hw1⟩, new1, hn1, hc1⟩ := h
  obtain ⟨b1, b2, b3, b4, ⟨w2, hw2⟩, new2, hn2, hc2⟩ := h'
  refine ⟨b1.trans a1, b2.trans a2, b3.trans a3, b4.trans a4,
    ⟨w1 ++ w2, by rw [hw2, hw1, List.append_assoc]⟩,
    new2 ++ new1, by rw [hn2, hn1, List.append_assoc], ?_⟩
  intro p hp
  rcases List.mem_append.mp hp with hp2 | hp1
  · obtain ⟨nm, hnm, hscan⟩ := hc2 p hp2
    exact ⟨nm, hnm, by rw [← resolveLocalScan_shape nm 0 s1.scopes s.scopes a1]; exact hscan⟩
  · exact hc1 p hp1

theorem setSame {α : Type} : ∀ (l : List α) (n : Nat) (x : α), l[n]? = some x → l.set n x = l
  | [], _, _, h => by cases h
  | a :: l, 0, x, h => by simp at h; rw [h]; rfl
  | a :: l, n + 1, x, h => by
      simp only [List.getElem?_cons_succ] at h
      simp [List.set, setSame l n x h]

theorem stepIn_resolveLocal (R : List (Loc × String)) (loc : Loc) (nm : String) (s : RState)
    (hmem : (loc, nm) ∈ R) : StepIn R s ((resolveLocal loc nm s).2) := by
  unfold resolveLocal
  split
  next idx h =>
    exact ⟨rfl, rfl, rfl, rfl, ⟨[], by simp⟩, [(loc, idx)], rfl,
      by rintro p hp; rw [List.mem_singleton] at hp; subst hp; exact ⟨nm, hmem, h⟩⟩
  next h =>
    split
    · exact StepIn.reflIn R s
    · exact StepIn.reflIn R s

theorem stepIn_updateVarType (R : List (Loc × String)) (nm : String) (vt : VarType)
    (loc : Loc) (s : RState) : StepIn R s (updateVarType nm vt loc s) := by
  unfold updateVarType
  split
  next depth h =>
    split
    next sc hsc =>
      refine ⟨?_, rfl, rfl, rfl, ⟨[], by simp⟩, ⟨[], by simp⟩⟩
      show (s.scopes.set depth _).map Scope.vars = s.scopes.map Scope.vars
      rw [List.map_set]
      exact setSame _ depth _ (by rw [List.getElem?_map, hsc]; rfl)
    next hsc => exact StepIn.reflIn R s
  next h => exact StepIn.reflIn R s

theorem stepIn_pushWarning (R : List (Loc × String)) (w : ResolverWarning) (s : RState) :
    StepIn R s (pushWarning w s) :=
  ⟨rfl, rfl, rfl, rfl, ⟨[w], rfl⟩, ⟨[], by simp [pushWarning]⟩⟩

theorem binaryResult_state (lhs rhs : VarType) (op : Token) (loc : Loc) (s : RState) :
    (binaryResult lhs rhs op loc s).2 = s ∨
    (binaryResult lhs rhs op loc s).2 = pushWarning .compIntFloat s := by
  rcases op with ⟨kind, value, oloc⟩
  rcases kind <;>
    rcases lhs <;> rcases rhs <;>
      first
        | exact Or.inl rfl
        | exact Or.inr rfl

theorem stepIn_binaryResult (R : List (Loc × String)) (lhs rhs : VarType) (op : Token)
    (loc : Loc) (s : RState) : StepIn R s ((binaryResult lhs rhs op loc s).2) := by
  rcases binaryResult_state lhs rhs op loc s with h | h <;> rw [h]
  · exact StepIn.reflIn R s
  · exact stepIn_pushWarning R .compIntFloat s

mutual
/-- Resolving an expression never touches the scope structure, the function
kind or the current structure; it only appends warnings and appends locals
writes, each write recording the scan depth of one of the expression's
resolvable nodes in the entry scope shape. -/
theorem stepInExpr : ∀ (e : Expr) (s : RState), StepIn (rnodesE e) s ((resolveExpr e s).2)
  | .intLiteral _ _, s => StepIn.reflIn _ s
  | .floatLiteral _, s => StepIn.reflIn _ s
  | .strLiteral _ _, s => StepIn.reflIn _ s
  | .identifier name loc, s => by
      rw [resolveExpr]
      split
      · exact StepIn.reflIn _ s
      · have h := stepIn_resolveLocal (rnodesE (.identifier name loc)) loc name s
          (by simp [rnodesE])
        rcases hr : resolveLocal loc name s with ⟨r, s1⟩
        rw [hr] at h
        rcases r with er | u
        · exact h
        · dsimp only
          rcases hg : getVarType name loc s1 with er | t <;> exact h
  | .unary op r ℓ, s => by
      have ih := stepInExpr r s
      rw [resolveExpr]
      rcases hr : resolveExpr r s with ⟨res, s1⟩
      rw [hr] at ih
      have ih' : StepIn (rnodesE (.unary op r ℓ)) s s1 := ih
      rcases res with er | vt
      · exact ih'
      · dsimp only
        rcases op.kind <;> (try dsimp only) <;>
          first
            | exact ih'
            | (split <;> exact ih')
  | .binary l op r ℓ, s => by
      have ihl := stepInExpr l s
      rw [resolveExpr]
      rcases hl : resolveExpr l s with ⟨resl, s1⟩
      rw [hl] at ihl
      have ihl' : StepIn (rnodesE (.binary l op r ℓ)) s s1 :=
        ihl.monoIn (by simp [rnodesE, List.subset_append_left])
      rcases resl with er | lt
      · exact ihl'
      · dsimp only
        have ihr := stepInExpr r s1
        rcases hr : resolveExpr r s1 with ⟨resr, s2⟩
        rw [hr] at ihr
        have ihr' : StepIn (rnodesE (.binary l op r ℓ)) s1 s2 :=
          ihr.monoIn (by simp [rnodesE, List.subset_append_right])
        rcases resr with er | rt
        · exact ihl'.trans ihr'
        · dsimp only
          exact (ihl'.trans ihr').trans (stepIn_binaryResult _ _ _ op ℓ s2)
  | .grouping inner ℓ, s => by
      have ih := stepInExpr inner s
      rw [resolveExpr]
      exact ih
  | .assign name value loc, s => by
      have h0 := stepIn_resolveLocal (rnodesE (.assign name value loc)) loc name s
        (by simp [rnodesE])
      rw [resolveExpr]
      rcases hr : resolveLocal loc name s with ⟨r0, s1⟩
      rw [hr] at h0
      rcases r0 with er | u
      · exact h0
      · dsimp only
        have ih1 := stepInExpr value s1
        rcases h1 : resolveExpr value s1 with ⟨r1, s2⟩
        rw [h1] at ih1
        have sub : rnodesE value ⊆ rnodesE (.assign name value loc) := by
          simp [rnodesE]
        have step01 : StepIn (rnodesE (.assign name value loc)) s s2 :=
          h0.trans (ih1.monoIn sub)
        rcases r1 with er | t1
        · exact step01
        · dsimp only
          rcases hg : getVarType name loc s2 with er | lt
          · exact step01
          · dsimp only
            have ih2 := stepInExpr value s2
            rcases h2 : resolveExpr value s2 with ⟨r2, s3⟩
            rw [h2] at ih2
            have step02 : StepIn (rnodesE (.assign name value loc)) s s3 :=
              step01.trans (ih2.monoIn sub)
            rcases r2 with er | t2
            · exact step02
            · dsimp only
              split
              · split
                · exact step02.trans (stepIn_updateVarType _ name t2 loc s3)
                · split
                  · exact step02
                  · exact step02
              · exact step02
  | .logical l op r loc, s => by
      have ihr := stepInExpr r s
      rw [resolveExpr]
      rcases hr : resolveExpr r s with ⟨resr, s1⟩
      rw [hr] at ihr
      have ihr' : StepIn (rnodesE (.logical l op r loc)) s s1 :=
        ihr.monoIn (by simp [rnodesE, List.subset_append_right])
      rcases resr with er | rt
      · exact ihr'
      · dsimp only
        have ihl := stepInExpr l s1
        rcases hl : resolveExpr l s1 with ⟨resl, s2⟩
        rw [hl] at ihl
        have ihl' : StepIn (rnodesE (.logical l op r loc)) s1 s2 :=
          ihl.monoIn (by simp [rnodesE, List.subset_append_left])
        rcases resl with er | lt
        · exact ihr'.trans ihl'
        · dsimp only
          split
          · exact ihr'.trans ihl'
          · exact ihr'.trans ihl'
  | .call callee args loc, s => by
      have ihc := stepInExpr callee s
      rw [resolveExpr]
      rcases hc : resolveExpr callee s with ⟨resc, s1⟩
      rw [hc] at ihc
      have ihc' : StepIn (rnodesE (.call callee args loc)) s s1 :=
        ihc.monoIn (by simp [rnodesE, List.subset_append_left])
      rcases resc with er | ct
      · exact ihc'
      · dsimp only
        have iha := stepInExprList args s1
        rcases ha : resolveExprList args s1 with ⟨resa, s2⟩
        rw [ha] at iha
        have iha' : StepIn (rnodesE (.call callee args loc)) s1 s2 :=
          iha.monoIn (by simp [rnodesE, List.subset_append_right])
        have step02 : StepIn (rnodesE (.call callee args loc)) s s2 := ihc'.trans iha'
        rcases resa with er | ts
        · exact step02
        · dsimp only
          rcases hf : calleeFnType ct callee.getLoc loc s2 with er | fd
          · exact step02
          · dsimp only
            rcases fd with ⟨argsDecl, ret⟩
            split
            · exact step02
            · rcases hchk : checkArgs ts argsDecl.toList loc with er | u
              · exact step02
              · dsimp only
                have ih2 := stepInArgsEach args s2
                rcases h2 : resolveArgsEach args s2 with ⟨r2, s3⟩
                rw [h2] at ih2
                have ih2' : StepIn (rnodesE (.call callee args loc)) s2 s3 :=
                  ih2.monoIn (by simp [rnodesE, List.subset_append_right])
                rcases r2 with er | u2
                · exact step02.trans ih2'
                · exact step02.trans ih2'
  | .getE obj name loc, s => by
      rw [resolveExpr]
      split
      · exact StepIn.reflIn _ s
      · have ih := stepInExpr obj s
        rcases ho : resolveExpr obj s with ⟨res, s1⟩
        rw [ho] at ih
        have ih' : StepIn (rnodesE (.getE obj name loc)) s s1 := ih
        rcases res with er | ot
        · exact ih'
        · dsimp only
          rcases ot <;> try exact ih'
          next sn =>
            dsimp only
            rcases ht : getTypeDef sn loc s1 with er | td <;> exact ih'
  | .setE obj name value loc, s => by
      have ih := stepInExpr obj s
      rw [resolveExpr]
      rcases ho : resolveExpr obj s with ⟨res, s1⟩
      rw [ho] at ih
      have ih' : StepIn (rnodesE (.setE obj name value loc)) s s1 :=
        ih.monoIn (by simp [rnodesE, List.subset_append_left])
      rcases res with er | ot
      · exact ih'
      · dsimp only
        have ihv := stepInExpr value s1
        rcases hv : resolveExpr value s1 with ⟨resv, s2⟩
        rw [hv] at ihv
        have ihv' : StepIn (rnodesE (.setE obj name value loc)) s1 s2 :=
          ihv.monoIn (by simp [rnodesE, List.subset_append_right])
        have step02 : StepIn (rnodesE (.setE obj name value loc)) s s2 := ih'.trans ihv'
        rcases resv with er | vt
        · exact step02
        · dsimp only
          rcases ot <;> try exact step02
          next sn =>
            dsimp only
            rcases ht : getTypeDef sn loc s2 with er | td
            · exact step02
            · dsimp only
              rcases hm : getMemberType td name with er | mt
              · exact step02
              · dsimp only
                split
                · exact step02
                · exact step02
  | .selfE name loc, s => by
      rw [resolveExpr]
      rcases hcs : s.currentStruct with _ | cs
      · exact StepIn.reflIn _ s
      · dsimp only
        have h := stepIn_resolveLocal (rnodesE (.selfE name loc)) loc name s
          (by simp [rnodesE])
        rcases hr : resolveLocal loc name s with ⟨r, s1⟩
        rw [hr] at h
        rcases r with er | u
        · exact h
        · exact h
  | .isE l typ loc, s => by
      have ih := stepInExpr l s
      rw [resolveExpr]
      rcases hl : resolveExpr l s with ⟨res, s1⟩
      rw [hl] at ih
      have ih' : StepIn (rnodesE (.isE l typ loc)) s s1 := ih
      rcases res with er | lt
      · exact ih'
      · dsimp only
        rcases hc : checkTypeExists typ.value loc s1 with er | u
        · exact ih'
        · dsimp only
          split
          · exact ih'
          · exact ih'
theorem stepInExprList : ∀ (es : ExprList) (s : RState),
    StepIn (rnodesEL es) s ((resolveExprList es s).2)
  | .nil, s => StepIn.reflIn _ s
  | .cons e rest, s => by
      have ih := stepInExpr e s
      rw [resolveExprList]
      rcases he : resolveExpr e s with ⟨res, s1⟩
      rw [he] at ih
      have ih' : StepIn (rnodesEL (.cons e rest)) s s1 :=
        ih.monoIn (by simp [rnodesEL, List.subset_append_left])
      rcases res with er | t
      · exact ih'
      · dsimp only
        have ihr := stepInExprList rest s1
        rcases hr : resolveExprList rest s1 with ⟨resr, s2⟩
        rw [hr] at ihr
        have ihr' : StepIn (rnodesEL (.cons e rest)) s1 s2 :=
          ihr.monoIn (by simp [rnodesEL, List.subset_append_right])
        rcases resr with er | ts
        · exact ih'.trans ihr'
        · exact ih'.trans ihr'
theorem stepInArgsEach : ∀ (es : ExprList) (s : RState),
    StepIn (rnodesEL es) s ((resolveArgsEach es s).2)
  | .nil, s => StepIn.reflIn _ s
  | .cons e rest, s => by
      have ih := stepInExpr e s
      rw [resolveArgsEach]
      rcases he : resolveExpr e s with ⟨res, s1⟩
      rw [he] at ih
      have ih' : StepIn (rnodesEL (.cons e rest)) s s1 :=
        ih.monoIn (by simp [rnodesEL, List.subset_append_left])
      rcases res with er | t
      · exact ih'
      · dsimp only
        have ihr := stepInArgsEach rest s1
        rcases hr : resolveArgsEach rest s1 with ⟨resr, s2⟩
        rw [hr] at ihr
        exact ih'.trans (ihr.monoIn (by simp [rnodesEL, List.subset_append_right]))
end

/-! ### The statement-step invariant -/

theorem nodupKeyEq {α β : Type} :
    ∀ (l : List (α × β)), (l.map Prod.fst).Nodup →
      ∀ (a : α) (b1 b2 : β), (a, b1) ∈ l → (a, b2) ∈ l → b1 = b2
  | [], _, _, _, _, h1, _ => absurd h1 (List.not_mem_nil _)
  | (a0, b0) :: rest, hnd, a, b1, b2, h1, h2 => by
      rw [List.map_cons, List.nodup_cons] at hnd
      rcases List.mem_cons.mp h1 with e1 | m1 <;> rcases List.mem_cons.mp h2 with e2 | m2
      · rw [Prod.mk.injEq] at e1 e2
        rw [e1.2, e2.2]
      · exfalso
        rw [Prod.mk.injEq] at e1
        have hm : a ∈ List.map Prod.fst rest := List.mem_map.mpr ⟨(a, b2), m2, rfl⟩
        rw [e1.1] at hm
        exact hnd.1 hm
      · exfalso
        rw [Prod.mk.injEq] at e2
        have hm : a ∈ List.map Prod.fst rest := List.mem_map.mpr ⟨(a, b1), m1, rfl⟩
        rw [e2.1] at hm
        exact hnd.1 hm
      · exact nodupKeyEq rest hnd.2 a b1 b2 m1 m2

theorem SStep.ofUntouched {R : List (Loc × String)} {s s' : RState}
    (hw : s'.warnings = s.warnings) (hl : s'.locals = s.locals) : SStep R s s' :=
  ⟨⟨[], by simp [hw]⟩, [], by simp [hl], by simp, fun _ _ h => hl ▸ h⟩

theorem SStep.reflS (R : List (Loc × String)) (s : RState) : SStep R s s :=
  SStep.ofUntouched rfl rfl

theorem sstep_pushWarning (R : List (Loc × String)) (w : ResolverWarning) (s : RState) :
    SStep R s (pushWarning w s) :=
  ⟨⟨[w], rfl⟩, [], by simp [pushWarning], by simp, fun _ _ h => h⟩

/-- A `StepIn` (an expression phase, or several chained over the same node
set) is a statement step: all its writes record the same scan depth per
name, so duplicate visits of the same nodes stay consistent. -/
theorem SStep.ofStepIn {R : List (Loc × String)} {s s' : RState}
    (h : StepIn R s s') : SStep R s s' := by
  obtain ⟨-, -, -, -, hw, new, hn, hc⟩ := h
  refine ⟨hw, new, hn, ?_, ?_⟩
  · intro p hp
    obtain ⟨nm, hnm, -⟩ := hc p hp
    exact List.mem_map_of_mem Prod.fst hnm
  · intro hnd hfresh hok
    rw [hn]
    rw [traceOK, List.pairwise_append]
    refine ⟨?_, hok, ?_⟩
    · refine List.pairwise_of_forall_mem_list ?_
      rintro ⟨ℓ1, d1⟩ hp ⟨ℓ2, d2⟩ hq heq
      dsimp at heq
      subst heq
      obtain ⟨nm1, hnm1, hs1⟩ := hc _ hp
      obtain ⟨nm2, hnm2, hs2⟩ := hc _ hq
      dsimp at hnm1 hnm2 hs1 hs2
      have : nm1 = nm2 := nodupKeyEq R hnd ℓ1 nm1 nm2 hnm1 hnm2
      subst this
      rw [hs1] at hs2
      exact (Option.some.injEq _ _).mp hs2
    · rintro ⟨ℓ1, d1⟩ hp ⟨ℓ2, d2⟩ hq heq
      dsimp at heq
      subst heq
      obtain ⟨nm1, hnm1, -⟩ := hc _ hp
      exact absurd hq (hfresh ℓ1 (List.mem_map_of_mem Prod.fst hnm1) d2)

theorem SStep.seq {R1 R2 : List (Loc × String)} {s s1 s2 : RState}
    (h : SStep R1 s s1) (h' : SStep R2 s1 s2) : SStep (R1 ++ R2) s s2 := by
  obtain ⟨⟨w1, hw1⟩, new1, hn1, hmem1, hok1⟩ := h
  obtain ⟨⟨w2, hw2⟩, new2, hn2, hmem2, hok2⟩ := h'
  refine ⟨⟨w1 ++ w2, by rw [hw2, hw1, List.append_assoc]⟩,
    new2 ++ new1, by rw [hn2, hn1, List.append_assoc], ?_, ?_⟩
  · rintro p hp
    rw [List.map_append]
    rcases List.mem_append.mp hp with h2 | h1
    · exact List.mem_append.mpr (Or.inr (hmem2 p h2))
    · exact List.mem_append.mpr (Or.inl (hmem1 p h1))
  · rw [List.map_append, List.nodup_append]
    rintro ⟨nd1, nd2, hdisj⟩ hfresh hok
    refine hok2 nd2 ?_ (hok1 nd1 (fun ℓ hm d => hfresh ℓ (List.mem_append.mpr (Or.inl hm)) d) hok)
    intro ℓ hm d hmem
    rw [hn1] at hmem
    rcases List.mem_append.mp hmem with hin | hold
    · exact hdisj (hmem1 _ hin) hm
    · exact hfresh ℓ (List.mem_append.mpr (Or.inr hm)) d hold

theorem SStep.monoS {R R' : List (Loc × String)} {s s' : RState}
    (hsub : R.Sublist R') (h : SStep R s s') : SStep R' s s' := by
  obtain ⟨hw, new, hn, hmem, hok⟩ := h
  refine ⟨hw, new, hn, ?_, ?_⟩
  · intro p hp
    exact (hsub.map Prod.fst).mem (hmem p hp)
  · intro hnd hfresh hok'
    exact hok ((hsub.map Prod.fst).nodup hnd)
      (fun ℓ hm d => hfresh ℓ ((hsub.map Prod.fst).mem hm) d) hok'

theorem SStep.untouchedAfter {R : List (Loc × String)} {s s1 s2 : RState}
    (h : SStep R s s1) (hw : s2.warnings = s1.warnings) (hl : s2.locals = s1.locals) :
    SStep R s s2 := by
  obtain ⟨⟨w, hw1⟩, new, hn, hmem, hok⟩ := h
  exact ⟨⟨w, by rw [hw, hw1]⟩, new, by rw [hl, hn], hmem,
    fun hnd hfresh htr => hl ▸ hok hnd hfresh htr⟩

theorem SStep.untouchedBefore {R : List (Loc × String)} {s s1 s2 : RState}
    (hw : s1.warnings = s.warnings) (hl : s1.locals = s.locals) (h : SStep R s1 s2) :
    SStep R s s2 := by
  obtain ⟨⟨w, hw1⟩, new, hn, hmem, hok⟩ := h
  exact ⟨⟨w, by rw [hw1, hw]⟩, new, by rw [hn, hl], hmem,
    fun hnd hfresh htr => hok hnd (by rw [hl]; exact hfresh) (by rw [hl]; exact htr)⟩

theorem declareName_untouched (n : String) (l : Loc) (t : String) (s : RState) :
    ((declareName n l t s).2).warnings = s.warnings ∧
    ((declareName n l t s).2).locals = s.locals := by
  unfold declareName
  split <;> split <;> exact ⟨rfl, rfl⟩

theorem defineName_untouched (n : String) (s : RState) :
    (defineName n s).warnings = s.warnings ∧ (defineName n s).locals = s.locals := by
  unfold defineName
  split <;> exact ⟨rfl, rfl⟩

theorem initVarType_untouched (n : String) (vt : VarType) (s : RState) :
    (initVarType n vt s).warnings = s.warnings ∧ (initVarType n vt s).locals = s.locals := by
  unfold initVarType
  split <;> exact ⟨rfl, rfl⟩

theorem declareType_untouched (td : StructTypeDef) (l : Loc) (s : RState) :
    ((declareType td l s).2).warnings = s.warnings ∧
    ((declareType td l s).2).locals = s.locals := by
  unfold declareType
  split <;> split <;> exact ⟨rfl, rfl⟩

theorem insertSelf_untouched (s : RState) :
    (insertSelf s).warnings = s.warnings ∧ (insertSelf s).locals = s.locals := by
  unfold insertSelf
  split <;> exact ⟨rfl, rfl⟩

theorem declareParams_untouched :
    ∀ (ps : List Param) (t : Token) (s : RState),
      ((declareParams ps t s).2).warnings = s.warnings ∧
      ((declareParams ps t s).2).locals = s.locals
  | [], _, _ => ⟨rfl, rfl⟩
  | p :: rest, t, s => by
      rw [declareParams]
      rcases hd : declareName p.name.value t.loc "variable" s with ⟨r, s1⟩
      have hd' := declareName_untouched p.name.value t.loc "variable" s
      rw [hd] at hd'
      rcases r with er | u
      · exact hd'
      · dsimp only
        have h2 := declareParams_untouched rest t
          (initVarType p.name.value (varTypeOfDecl p.typ) (defineName p.name.value s1))
        have h3 := initVarType_untouched p.name.value (varTypeOfDecl p.typ)
          (defineName p.name.value s1)
        have h4 := defineName_untouched p.name.value s1
        exact ⟨by rw [h2.1, h3.1, h4.1, hd'.1], by rw [h2.2, h3.2, h4.2, hd'.2]⟩

/-- The `Return` statement visit only resolves its value expression, so it is
an expression-level step over the value's resolvable nodes. -/
theorem stepIn_retStmt (v : Option Expr) (loc : Loc) (s : RState) :
    StepIn (rnodesS (.ret v loc)) s ((resolveStmt (.ret v loc) s).2) := by
  simp only [resolveStmt]
  rcases s.fnType
  · exact StepIn.reflIn _ s
  · dsimp only
    rcases v with _ | ve
    · exact StepIn.reflIn _ s
    · dsimp only
      have ih := stepInExpr ve s
      rcases he : resolveExpr ve s with ⟨r, s1⟩
      rw [he] at ih
      have ih' : StepIn (rnodesS (.ret (some ve) loc)) s s1 := ih
      rcases r with er | t <;> exact ih'
  · exact StepIn.reflIn _ s
  · dsimp only
    rcases v with _ | ve
    · exact StepIn.reflIn _ s
    · dsimp only
      have ih := stepInExpr ve s
      rcases he : resolveExpr ve s with ⟨r, s1⟩
      rw [he] at ih
      have ih' : StepIn (rnodesS (.ret (some ve) loc)) s s1 := ih
      rcases r with er | t <;> exact ih'

theorem sstep_resolveVarDecl (d : VarDeclData) (s : RState) :
    SStep (rnodesVD d) s ((resolveVarDecl d s).2) := by
  rcases d with ⟨nameTok, typ, value⟩
  rw [resolveVarDecl]
  rcases hd : declareName nameTok.value nameTok.loc "variable" s with ⟨r, s1⟩
  have hd' := declareName_untouched nameTok.value nameTok.loc "variable" s
  rw [hd] at hd'
  have step1 : SStep (rnodesVD ⟨nameTok, typ, value⟩) s s1 :=
    SStep.ofUntouched hd'.1 hd'.2
  rcases r with er | u
  · exact step1
  · dsimp only
    split
    · exact step1
    · rcases value with _ | v
      · dsimp only
        have fin0 : ∀ (ft : VarType),
            SStep (rnodesVD ⟨nameTok, typ, none⟩) s (defineAndInit nameTok.value ft s1) := by
          intro ft
          have h3 := initVarType_untouched nameTok.value ft (defineName nameTok.value s1)
          have h4 := defineName_untouched nameTok.value s1
          exact step1.untouchedAfter (by simp [defineAndInit, h3.1, h4.1])
            (by simp [defineAndInit, h3.2, h4.2])
        exact fin0 _
      · dsimp only
        have ih := stepInExpr v s1
        rcases hv : resolveExpr v s1 with ⟨rv, s2⟩
        rw [hv] at ih
        have step2 : SStep (rnodesVD ⟨nameTok, typ, some v⟩) s s2 :=
          SStep.untouchedBefore hd'.1 hd'.2 (SStep.ofStepIn ih)
        rcases rv with er | vt
        · exact step2
        · dsimp only
          have fin : ∀ (ft : VarType),
              SStep (rnodesVD ⟨nameTok, typ, some v⟩) s
                (defineAndInit nameTok.value ft s2) := by
            intro ft
            have h3 := initVarType_untouched nameTok.value ft (defineName nameTok.value s2)
            have h4 := defineName_untouched nameTok.value s2
            exact step2.untouchedAfter (by simp [defineAndInit, h3.1, h4.1])
              (by simp [defineAndInit, h3.2, h4.2])
          split
          · split
            · exact step2
            · exact fin _
          · exact fin _

/-- One iteration of the `resolve_fn` body fold for a non-`Return`-with-value
statement, with the recursive facts supplied as hypotheses. -/
theorem fnBodyGenericStep (st : Stmt) (rest : StmtList) (rt : Option VarType) (tl : Loc)
    (s s0 : RState) (step0 : SStep [] s s0)
    (ihst : SStep (rnodesS st) s0 ((resolveStmt st s0).2))
    (ihrest : ∀ (rt' : Option VarType) (tl' : Loc) (s' : RState),
      SStep (rnodesSL rest) s' ((resolveFnBody rest rt' tl' s').2)) :
    SStep (rnodesS st ++ rnodesSL rest) s
      ((match resolveStmt st s0 with
        | (Except.error er, s1) => ((Except.error er, rt, tl), s1)
        | (Except.ok _, s1) => resolveFnBody rest rt tl s1).2) := by
  rcases hst : resolveStmt st s0 with ⟨rs, s1⟩
  rw [hst] at ihst
  rcases rs with er | u
  · exact step0.seq (ihst.monoS (List.sublist_append_left _ (rnodesSL rest)))
  · exact step0.seq (ihst.seq (ihrest rt tl s1))

/-- One iteration of the `resolve_fn` body fold for a `Return` statement with
a value: the value is visited twice, once by the pre-scan and once by the
statement visit, both under the same scope shape. -/
theorem fnBodyRetStep (ve : Expr) (rloc : Loc) (rest : StmtList) (rt : Option VarType)
    (tl : Loc) (s s0 : RState) (step0 : SStep [] s s0)
    (ihrest : ∀ (rt' : Option VarType) (tl' : Loc) (s' : RState),
      SStep (rnodesSL rest) s' ((resolveFnBody rest rt' tl' s').2)) :
    SStep (rnodesE ve ++ rnodesSL rest) s
      ((match resolveExpr ve s0 with
        | (Except.error er, s1) => ((Except.error er, rt, tl), s1)
        | (Except.ok t, s1) =>
            match resolveStmt (.ret (some ve) rloc) s1 with
            | (Except.error er, s2) => ((Except.error er, some t, ve.getLoc), s2)
            | (Except.ok _, s2) => resolveFnBody rest (some t) ve.getLoc s2).2) := by
  have hexpr := stepInExpr ve s0
  rcases he : resolveExpr ve s0 with ⟨re, s1⟩
  rw [he] at hexpr
  rcases re with er | tv
  · exact step0.seq ((SStep.ofStepIn hexpr).monoS
      (List.sublist_append_left _ (rnodesSL rest)))
  · show SStep _ s
      ((match resolveStmt (.ret (some ve) rloc) s1 with
        | (Except.error er, s2) => ((Except.error er, some tv, ve.getLoc), s2)
        | (Except.ok _, s2) => resolveFnBody rest (some tv) ve.getLoc s2).2)
    have hret := stepIn_retStmt (some ve) rloc s1
    rcases hst2 : resolveStmt (.ret (some ve) rloc) s1 with ⟨rs, s2⟩
    rw [hst2] at hret
    have comb : StepIn (rnodesE ve) s0 s2 := hexpr.trans hret
    rcases rs with er | u
    · exact step0.seq ((SStep.ofStepIn comb).monoS
        (List.sublist_append_left _ (rnodesSL rest)))
    · exact step0.seq ((SStep.ofStepIn comb).seq (ihrest (some tv) ve.getLoc s2))

mutual
/-- Every statement visit only appends warnings and locals writes, the
writes stay within the statement's resolvable locations, and a consistent
write history over fresh duplicate-free locations stays consistent. -/
theorem sstepStmt : ∀ (st : Stmt) (s : RState), SStep (rnodesS st) s ((resolveStmt st s).2)
  | .exprStmt e, s => by
      simp only [resolveStmt]
      have ih := stepInExpr e s
      rcases he : resolveExpr e s with ⟨r, s1⟩
      rw [he] at ih
      have ih' : SStep (rnodesS (.exprStmt e)) s s1 := SStep.ofStepIn ih
      rcases r with er | t <;> exact ih'
  | .print e, s => by
      simp only [resolveStmt]
      have ih := stepInExpr e s
      rcases he : resolveExpr e s with ⟨r, s1⟩
      rw [he] at ih
      have ih' : SStep (rnodesS (.print e)) s s1 := SStep.ofStepIn ih
      rcases r with er | t <;> exact ih'
  | .varDecl d, s => sstep_resolveVarDecl d s
  | .block stmts, s => by
      simp only [resolveStmt]
      have ih := sstepStmts stmts (beginScope s)
      rcases hb : resolveStmts stmts (beginScope s) with ⟨r, s1⟩
      rw [hb] at ih
      have ih' : SStep (rnodesS (.block stmts)) s s1 := SStep.untouchedBefore rfl rfl ih
      rcases r with er | u
      · exact ih'
      · exact ih'.untouchedAfter rfl rfl
  | .ifStmt c t e, s => by
      simp only [resolveStmt]
      have ihc := stepInExpr c s
      rcases hc : resolveExpr c s with ⟨rc, s1⟩
      rw [hc] at ihc
      have sc : SStep (rnodesE c) s s1 := SStep.ofStepIn ihc
      rcases rc with er | ct
      · exact sc.monoS ((List.sublist_append_left _ (rnodesOpt t)).trans
          (List.sublist_append_left _ (rnodesOpt e)))
      · dsimp only
        have iht := sstepOpt t s1
        rcases ht : resolveOptStmt t s1 with ⟨rt, s2⟩
        rw [ht] at iht
        rcases rt with er | u
        · exact (sc.seq iht).monoS (List.sublist_append_left _ (rnodesOpt e))
        · dsimp only
          have ihe := sstepOpt e s2
          rcases hee : resolveOptStmt e s2 with ⟨re, s3⟩
          rw [hee] at ihe
          rcases re with er | u2 <;> exact (sc.seq iht).seq ihe
  | .whileStmt c b, s => by
      simp only [resolveStmt]
      have ihc := stepInExpr c s
      rcases hc : resolveExpr c s with ⟨rc, s1⟩
      rw [hc] at ihc
      have sc : SStep (rnodesE c) s s1 := SStep.ofStepIn ihc
      rcases rc with er | ct
      · exact sc.monoS (List.sublist_append_left _ (rnodesS b))
      · dsimp only
        have ihb := sstepStmt b s1
        rcases hb : resolveStmt b s1 with ⟨rb, s2⟩
        rw [hb] at ihb
        rcases rb with er | u <;> exact sc.seq ihb
  | .forStmt ph b, s => by
      simp only [resolveStmt]
      have h1 := sstep_resolveVarDecl ph (beginScope s)
      rcases hv : resolveVarDecl ph (beginScope s) with ⟨r, s1⟩
      rw [hv] at h1
      have step1 : SStep (rnodesVD ph) s s1 := SStep.untouchedBefore rfl rfl h1
      rcases r with er | u
      · exact step1.monoS (List.sublist_append_left _ (rnodesS b))
      · dsimp only
        have h2 := sstepStmt b (initVarType ph.name.value .int s1)
        rcases hb : resolveStmt b (initVarType ph.name.value .int s1) with ⟨rb, s2⟩
        rw [hb] at h2
        have hin := initVarType_untouched ph.name.value .int s1
        have step2 : SStep (rnodesS b) s1 s2 := SStep.untouchedBefore hin.1 hin.2 h2
        rcases rb with er | u2
        · exact step1.seq step2
        · exact (step1.seq step2).untouchedAfter rfl rfl
  | .fnDeclStmt f, s => by
      simp only [resolveStmt]
      rcases hd : declareName f.name.value f.name.loc "function" s with ⟨r, s1⟩
      have hd' := declareName_untouched f.name.value f.name.loc "function" s
      rw [hd] at hd'
      rcases r with er | u
      · exact SStep.ofUntouched hd'.1 hd'.2
      · dsimp only
        have hi := initVarType_untouched f.name.value (resolveFnTypeOf f) (defineName f.name.value s1)
        have hdef := defineName_untouched f.name.value s1
        have ih := sstepFn f .function
          (initVarType f.name.value (resolveFnTypeOf f) (defineName f.name.value s1))
        exact SStep.untouchedBefore (by rw [hi.1, hdef.1, hd'.1]) (by rw [hi.2, hdef.2, hd'.2]) ih
  | .ret v loc, s => SStep.ofStepIn (stepIn_retStmt v loc s)
  | .structDecl name fields methods, s => by
      simp only [resolveStmt]
      rcases hd : declareName name.value name.loc "structure"
          { s with currentStruct := some name.value } with ⟨r, s1⟩
      have hd' := declareName_untouched name.value name.loc "structure"
        { s with currentStruct := some name.value }
      rw [hd] at hd'
      rcases r with er | u
      · exact SStep.ofUntouched hd'.1 hd'.2
      · dsimp only
        have hdef := defineName_untouched name.value s1
        rcases hm : structMembersTypes fields methods with er | fm
        · exact SStep.ofUntouched (by rw [hdef.1, hd'.1]) (by rw [hdef.2, hd'.2])
        · dsimp only
          rcases fm with ⟨fts, mts⟩
          dsimp only
          rcases ht : declareType ⟨name.value, fts, mts⟩ name.loc
              (defineName name.value s1) with ⟨r3, s3⟩
          have ht' := declareType_untouched ⟨name.value, fts, mts⟩ name.loc
            (defineName name.value s1)
          rw [ht] at ht'
          rcases r3 with er | u3
          · exact SStep.ofUntouched (by rw [ht'.1, hdef.1, hd'.1])
              (by rw [ht'.2, hdef.2, hd'.2])
          · dsimp only
            have hself := insertSelf_untouched (beginScope s3)
            have ih := sstepMethods methods (insertSelf (beginScope s3))
            rcases hms : resolveMethods methods (insertSelf (beginScope s3)) with ⟨r5, s5⟩
            rw [hms] at ih
            have step : SStep (rnodesFnList methods) s s5 :=
              SStep.untouchedBefore (by rw [hself.1]; show s3.warnings = _; rw [ht'.1, hdef.1, hd'.1])
                (by rw [hself.2]; show s3.locals = _; rw [ht'.2, hdef.2, hd'.2]) ih
            rcases r5 with er | u5
            · exact step
            · exact step.untouchedAfter rfl rfl
theorem sstepOpt : ∀ (t : OptStmt) (s : RState), SStep (rnodesOpt t) s ((resolveOptStmt t s).2)
  | .noneS, s => SStep.reflS _ s
  | .someS st, s => sstepStmt st s
theorem sstepStmts : ∀ (sl : StmtList) (s : RState), SStep (rnodesSL sl) s ((resolveStmts sl s).2)
  | .nil, s => SStep.reflS _ s
  | .cons st rest, s => by
      simp only [resolveStmts]
      have ih := sstepStmt st s
      rcases hst : resolveStmt st s with ⟨r, s1⟩
      rw [hst] at ih
      rcases r with er | u
      · exact ih.monoS (List.sublist_append_left _ (rnodesSL rest))
      · dsimp only
        have ihr := sstepStmts rest s1
        rcases hr : resolveStmts rest s1 with ⟨rr, s2⟩
        rw [hr] at ihr
        rcases rr with er | u2 <;> exact ih.seq ihr
theorem sstepFn : ∀ (f : FnDecl) (typ : FnKind) (s : RState),
    SStep (rnodesFn f) s ((resolveFn f typ s).2)
  | .mk nameTok params retT body, typ, s => by
      simp only [resolveFn]
      split
      · exact SStep.reflS _ s
      · rcases hp : declareParams params nameTok (beginScope { s with fnType := typ })
            with ⟨r, s2⟩
        have hp' := declareParams_untouched params nameTok (beginScope { s with fnType := typ })
        rw [hp] at hp'
        rcases r with er | u
        · exact SStep.ofUntouched hp'.1 hp'.2
        · dsimp only
          have ih := sstepFnBody body none (0, 0) s2
          rcases hb : resolveFnBody body none (0, 0) s2 with ⟨⟨rb, rt, tl⟩, s3⟩
          rw [hb] at ih
          have step : SStep (rnodesFn (.mk nameTok params retT body)) s s3 :=
            SStep.untouchedBefore hp'.1 hp'.2 ih
          rcases rb with er | u2
          · exact step
          · dsimp only
            rcases rt with _ | r1 <;> rcases retT with _ | r2 <;> (try dsimp only)
            · exact step.untouchedAfter rfl rfl
            · split
              · exact step
              · exact step.untouchedAfter rfl rfl
            · split
              · exact step
              · exact step.untouchedAfter rfl rfl
            · split
              · exact step
              · exact step.untouchedAfter rfl rfl
theorem sstepFnBody : ∀ (body : StmtList) (rt : Option VarType) (tl : Loc) (s : RState),
    SStep (rnodesSL body) s ((resolveFnBody body rt tl s).2)
  | .nil, _, _, s => SStep.reflS _ s
  | .cons st rest, rt, tl, s => by
      simp only [resolveFnBody]
      generalize hgen : (if rt.isSome then pushWarning .unreachAfterReturn s else s) = s0
      have step0 : SStep ([] : List (Loc × String)) s s0 := by
        rw [← hgen]
        split
        · exact sstep_pushWarning [] _ s
        · exact SStep.reflS [] s
      have ihst := sstepStmt st s0
      have ihrest := fun (rt' : Option VarType) (tl' : Loc) (s' : RState) =>
        sstepFnBody rest rt' tl' s'
      cases st
      case ret v rloc =>
        rcases v with _ | ve
        · exact fnBodyGenericStep _ rest rt tl s s0 step0 ihst ihrest
        · exact fnBodyRetStep ve rloc rest rt tl s s0 step0 ihrest
      all_goals exact fnBodyGenericStep _ rest rt tl s s0 step0 ihst ihrest
theorem sstepMethods : ∀ (ms : FnList) (s : RState),
    SStep (rnodesFnList ms) s ((resolveMethods ms s).2)
  | .nil, s => SStep.reflS _ s
  | .cons m rest, s => by
      simp only [resolveMethods]
      have ih := sstepFn m (if m.name.value = "init" then FnKind.init else FnKind.method) s
      rcases hf : resolveFn m (if m.name.value = "init" then FnKind.init else FnKind.method) s
          with ⟨r, s1⟩
      rw [hf] at ih
      rcases r with er | u
      · exact ih.monoS (List.sublist_append_left _ (rnodesFnList rest))
      · dsimp only
        have ihr := sstepMethods rest s1
        rcases hr : resolveMethods rest s1 with ⟨rr, s2⟩
        rw [hr] at ihr
        rcases rr with er | u2 <;> exact ih.seq ihr
end

/-! ### Scope-stack length facts -/

theorem exprScopesLen (e : Expr) (s : RState) :
    ((resolveExpr e s).2).scopes.length = s.scopes.length := by
  have h := (stepInExpr e s).1
  have h2 := congrArg List.length h
  simpa using h2

theorem exprListScopesLen (es : ExprList) (s : RState) :
    ((resolveExprList es s).2).scopes.length = s.scopes.length := by
  have h := (stepInExprList es s).1
  have h2 := congrArg List.length h
  simpa using h2

theorem argsEachScopesLen (es : ExprList) (s : RState) :
    ((resolveArgsEach es s).2).scopes.length = s.scopes.length := by
  have h := (stepInArgsEach es s).1
  have h2 := congrArg List.length h
  simpa using h2

theorem scopesLen_declareName (n : String) (l : Loc) (t : String) (s : RState) :
    ((declareName n l t s).2).scopes.length = s.scopes.length := by
  unfold declareName
  split <;> split <;> simp_all

theorem scopesLen_defineName (n : String) (s : RState) :
    (defineName n s).scopes.length = s.scopes.length := by
  unfold defineName
  split <;> simp_all

theorem scopesLen_initVarType (n : String) (vt : VarType) (s : RState) :
    (initVarType n vt s).scopes.length = s.scopes.length := by
  unfold initVarType
  split <;> simp_all

theorem scopesLen_declareType (td : StructTypeDef) (l : Loc) (s : RState) :
    ((declareType td l s).2).scopes.length = s.scopes.length := by
  unfold declareType
  split <;> split <;> simp_all

theorem scopesLen_insertSelf (s : RState) :
    (insertSelf s).scopes.length = s.scopes.length := by
  unfold insertSelf
  split <;> simp_all

theorem scopesLen_declareParams :
    ∀ (ps : List Param) (t : Token) (s : RState),
      ((declareParams ps t s).2).scopes.length = s.scopes.length
  | [], _, _ => rfl
  | p :: rest, t, s => by
      rw [declareParams]
      rcases hd : declareName p.name.value t.loc "variable" s with ⟨r, s1⟩
      have hd' := scopesLen_declareName p.name.value t.loc "variable" s
      rw [hd] at hd'
      rcases r with er | u
      · exact hd'
      · dsimp only
        rw [scopesLen_declareParams rest t _, scopesLen_initVarType, scopesLen_defineName]
        exact hd'

theorem scopesLen_resolveVarDecl (d : VarDeclData) (s : RState) :
    ((resolveVarDecl d s).2).scopes.length = s.scopes.length := by
  rcases d with ⟨nameTok, typ, value⟩
  rw [resolveVarDecl]
  rcases hd : declareName nameTok.value nameTok.loc "variable" s with ⟨r, s1⟩
  have hd' := scopesLen_declareName nameTok.value nameTok.loc "variable" s
  rw [hd] at hd'
  rcases r with er | u
  · exact hd'
  · dsimp only
    split
    · exact hd'
    · rcases value with _ | v
      · dsimp only
        show (defineAndInit _ _ s1).scopes.length = _
        rw [defineAndInit, scopesLen_initVarType, scopesLen_defineName]
        exact hd'
      · dsimp only
        have hv' := exprScopesLen v s1
        rcases hv : resolveExpr v s1 with ⟨rv, s2⟩
        rw [hv] at hv'
        have hs2 : s2.scopes.length = s.scopes.length := by rw [hv']; exact hd'
        rcases rv with er | vt
        · exact hs2
        · dsimp only
          split
          · split
            · exact hs2
            · show (defineAndInit _ _ s2).scopes.length = _
              rw [defineAndInit, scopesLen_initVarType, scopesLen_defineName]
              exact hs2
          · show (defineAndInit _ _ s2).scopes.length = _
            rw [defineAndInit, scopesLen_initVarType, scopesLen_defineName]
            exact hs2

theorem retStmtScopesLen (v : Option Expr) (loc : Loc) (s : RState) :
    ((resolveStmt (.ret v loc) s).2).scopes.length = s.scopes.length := by
  have h := (stepIn_retStmt v loc s).1
  have h2 := congrArg List.length h
  simpa using h2

mutual
/-- On every successful statement visit the scope stack has the same length
after the visit as before it. -/
theorem okLenStmt : ∀ (st : Stmt) (s s' : RState),
    resolveStmt st s = (.ok (), s') → s'.scopes.length = s.scopes.length
  | .exprStmt e, s, s' => by
      intro h
      simp only [resolveStmt] at h
      have he' := exprScopesLen e s
      rcases he : resolveExpr e s with ⟨r1, s1⟩
      rw [he] at h he'
      rcases r1 with er | u
      · simp at h
      · simp at h
        rw [← h]
        exact he'
  | .print e, s, s' => by
      intro h
      simp only [resolveStmt] at h
      have he' := exprScopesLen e s
      rcases he : resolveExpr e s with ⟨r1, s1⟩
      rw [he] at h he'
      rcases r1 with er | u
      · simp at h
      · simp at h
        rw [← h]
        exact he'
  | .varDecl d, s, s' => by
      intro h
      have := scopesLen_resolveVarDecl d s
      rw [show resolveVarDecl d s = (.ok (), s') from h] at this
      exact this
  | .block stmts, s, s' => by
      intro h
      simp only [resolveStmt] at h
      rcases hb : resolveStmts stmts (beginScope s) with ⟨r, s1⟩
      rw [hb] at h
      rcases r with er | u
      · simp at h
      · simp at h
        have ih := okLenStmts stmts (beginScope s) s1 hb
        rw [← h]
        show s1.scopes.tail.length = _
        rw [List.length_tail, ih]
        simp [beginScope]
  | .ifStmt c t e, s, s' => by
      intro h
      simp only [resolveStmt] at h
      have hc' := exprScopesLen c s
      rcases hc : resolveExpr c s with ⟨rc, s1⟩
      rw [hc] at h hc'
      rcases rc with er | ct
      · simp at h
      · simp only at h
        rcases ht : resolveOptStmt t s1 with ⟨rt, s2⟩
        rw [ht] at h
        rcases rt with er | u
        · simp at h
        · simp only at h
          have ih1 := okLenOpt t s1 s2 ht
          have ih2 := okLenOpt e s2 s' h
          rw [ih2, ih1, hc']
  | .whileStmt c b, s, s' => by
      intro h
      simp only [resolveStmt] at h
      have hc' := exprScopesLen c s
      rcases hc : resolveExpr c s with ⟨rc, s1⟩
      rw [hc] at h hc'
      rcases rc with er | ct
      · simp at h
      · simp only at h
        have ih := okLenStmt b s1 s' h
        rw [ih, hc']
  | .forStmt ph b, s, s' => by
      intro h
      simp only [resolveStmt] at h
      have hv' := scopesLen_resolveVarDecl ph (beginScope s)
      rcases hv : resolveVarDecl ph (beginScope s) with ⟨r, s1⟩
      rw [hv] at h hv'
      rcases r with er | u
      · simp at h
      · simp only at h
        rcases hb : resolveStmt b (initVarType ph.name.value .int s1) with ⟨rb, s2⟩
        rw [hb] at h
        rcases rb with er | u2
        · simp at h
        · simp at h
          have ih := okLenStmt b (initVarType ph.name.value .int s1) s2 hb
          rw [← h]
          show s2.scopes.tail.length = _
          rw [List.length_tail, ih, scopesLen_initVarType, hv']
          simp [beginScope]
  | .fnDeclStmt f, s, s' => by
      intro h
      simp only [resolveStmt] at h
      have hd' := scopesLen_declareName f.name.value f.name.loc "function" s
      rcases hd : declareName f.name.value f.name.loc "function" s with ⟨r, s1⟩
      rw [hd] at h hd'
      rcases r with er | u
      · simp at h
      · simp only at h
        have ih := okLenFn f .function _ s' h
        rw [ih, scopesLen_initVarType, scopesLen_defineName, hd']
  | .ret v loc, s, s' => by
      intro h
      have := retStmtScopesLen v loc s
      rw [show resolveStmt (.ret v loc) s = (.ok (), s') from h] at this
      exact this
  | .structDecl name fields methods, s, s' => by
      intro h
      simp only [resolveStmt] at h
      have hd' := scopesLen_declareName name.value name.loc "structure"
        { s with currentStruct := some name.value }
      rcases hd : declareName name.value name.loc "structure"
          { s with currentStruct := some name.value } with ⟨r, s1⟩
      rw [hd] at h hd'
      rcases r with er | u
      · simp at h
      · simp only at h
        rcases hm : structMembersTypes fields methods with er | fm
        · rw [hm] at h
          simp at h
        · rw [hm] at h
          rcases fm with ⟨fts, mts⟩
          simp only at h
          have ht' := scopesLen_declareType ⟨name.value, fts, mts⟩ name.loc
            (defineName name.value s1)
          rcases ht : declareType ⟨name.value, fts, mts⟩ name.loc
              (defineName name.value s1) with ⟨r3, s3⟩
          rw [ht] at h ht'
          rcases r3 with er | u3
          · simp at h
          · simp only at h
            rcases hms : resolveMethods methods (insertSelf (beginScope s3)) with ⟨r5, s5⟩
            rw [hms] at h
            rcases r5 with er | u5
            · simp at h
            · simp at h
              have ih := okLenMethods methods (insertSelf (beginScope s3)) s5 hms
              rw [← h]
              show s5.scopes.tail.length = _
              rw [List.length_tail, ih, scopesLen_insertSelf]
              have h3 : s3.scopes.length = s.scopes.length := by
                rw [ht', scopesLen_defineName, hd']
              simp [beginScope, h3]
theorem okLenOpt : ∀ (t : OptStmt) (s s' : RState),
    resolveOptStmt t s = (.ok (), s') → s'.scopes.length = s.scopes.length
  | .noneS, s, s' => by
      intro h
      simp only [resolveOptStmt] at h
      simp at h
      rw [← h]
  | .someS st, s, s' => fun h => okLenStmt st s s' h
theorem okLenStmts : ∀ (sl : StmtList) (s s' : RState),
    resolveStmts sl s = (.ok (), s') → s'.scopes.length = s.scopes.length
  | .nil, s, s' => by
      intro h
      simp only [resolveStmts] at h
      simp at h
      rw [← h]
  | .cons st rest, s, s' => by
      intro h
      simp only [resolveStmts] at h
      rcases hst : resolveStmt st s with ⟨r, s1⟩
      rw [hst] at h
      rcases r with er | u
      · simp at h
      · simp only at h
        have ih1 := okLenStmt st s s1 hst
        have ih2 := okLenStmts rest s1 s' h
        rw [ih2, ih1]
theorem okLenFn : ∀ (f : FnDecl) (k : FnKind) (s s' : RState),
    resolveFn f k s = (.ok (), s') → s'.scopes.length = s.scopes.length
  | .mk nameTok params retT body, k, s, s' => by
      intro h
      simp only [resolveFn] at h
      split at h
      · simp at h
      · have hp' := scopesLen_declareParams params nameTok (beginScope { s with fnType := k })
        rcases hp : declareParams params nameTok (beginScope { s with fnType := k })
            with ⟨r, s2⟩
        rw [hp] at h hp'
        rcases r with er | u
        · simp at h
        · simp only at h
          rcases hb : resolveFnBody body none (0, 0) s2 with ⟨⟨rb, rt, tl⟩, s3⟩
          rw [hb] at h
          rcases rb with er | u2
          · simp at h
          · simp only at h
            have ih := okLenFnBody body none (0, 0) s2 (.ok u2) rt tl s3 hb rfl
            have hlen3 : s3.scopes.length = s.scopes.length + 1 := by
              rw [ih, hp']
              simp [beginScope]
            have hfin : ∀ s'', s'' = { endScope s3 with fnType := s.fnType } →
                s''.scopes.length = s.scopes.length := by
              rintro s'' rfl
              show s3.scopes.tail.length = _
              rw [List.length_tail, hlen3]
              simp
            split at h
            · split at h
              · simp at h
              · simp at h
                exact hfin s' h.symm
            · split at h
              · simp at h
              · simp at h
                exact hfin s' h.symm
            · split at h
              · simp at h
              · simp at h
                exact hfin s' h.symm
            · simp at h
              exact hfin s' h.symm
theorem okLenFnBody : ∀ (body : StmtList) (rt0 : Option VarType) (tl0 : Loc) (s : RState)
    (rb : Except RevRes Unit) (rt : Option VarType) (tl : Loc) (s' : RState),
    resolveFnBody body rt0 tl0 s = ((rb, rt, tl), s') → rb = .ok () →
    s'.scopes.length = s.scopes.length
  | .nil, rt0, tl0, s, rb, rt, tl, s' => by
      intro h hok
      simp only [resolveFnBody] at h
      simp at h
      rw [← h.2]
  | .cons st rest, rt0, tl0, s, rb, rt, tl, s' => by
      intro h hok
      simp only [resolveFnBody] at h
      generalize hgen : (if rt0.isSome then pushWarning .unreachAfterReturn s else s) = s0 at h
      have hs0 : s0.scopes.length = s.scopes.length := by
        rw [← hgen]
        split <;> simp [pushWarning]
      have hgeneric : ∀ (hmatch : (match resolveStmt st s0 with
            | (Except.error er, s1) => ((Except.error er, rt0, tl0), s1)
            | (Except.ok _, s1) => resolveFnBody rest rt0 tl0 s1) = ((rb, rt, tl), s')),
          s'.scopes.length = s.scopes.length := by
        intro hmatch
        rcases hst : resolveStmt st s0 with ⟨rs, s1⟩
        rw [hst] at hmatch
        rcases rs with er | u
        · simp at hmatch
          rw [← hmatch.1.1] at hok
          simp at hok
        · simp only at hmatch
          have ih1 := okLenStmt st s0 s1 hst
          have ih2 := okLenFnBody rest rt0 tl0 s1 rb rt tl s' hmatch hok
          rw [ih2, ih1, hs0]
      cases st
      case ret v rloc =>
        rcases v with _ | ve
        · exact hgeneric h
        · have h2 : (match resolveExpr ve s0 with
              | (Except.error er, s1) => ((Except.error er, rt0, tl0), s1)
              | (Except.ok t, s1) =>
                  match resolveStmt (Stmt.ret (some ve) rloc) s1 with
                  | (Except.error er, s2) => ((Except.error er, some t, ve.getLoc), s2)
                  | (Except.ok _, s2) => resolveFnBody rest (some t) ve.getLoc s2) =
              ((rb, rt, tl), s') := h
          have hexpr := exprScopesLen ve s0
          rcases he : resolveExpr ve s0 with ⟨re, s1⟩
          rw [he] at h2 hexpr
          rcases re with er | tv
          · simp at h2
            rw [← h2.1.1] at hok
            simp at hok
          · have h3 : (match resolveStmt (Stmt.ret (some ve) rloc) s1 with
                | (Except.error er, s2) => ((Except.error er, some tv, ve.getLoc), s2)
                | (Except.ok _, s2) => resolveFnBody rest (some tv) ve.getLoc s2) =
                ((rb, rt, tl), s') := h2
            have hret := retStmtScopesLen (some ve) rloc s1
            rcases hst2 : resolveStmt (.ret (some ve) rloc) s1 with ⟨rs, s2⟩
            rw [hst2] at h3 hret
            rcases rs with er | u
            · simp at h3
              rw [← h3.1.1] at hok
              simp at hok
            · simp only at h3
              have ih2 := okLenFnBody rest (some tv) ve.getLoc s2 rb rt tl s' h3 hok
              rw [ih2, hret, hexpr, hs0]
      all_goals exact hgeneric h
theorem okLenMethods : ∀ (ms : FnList) (s s' : RState),
    resolveMethods ms s = (.ok (), s') → s'.scopes.length = s.scopes.length
  | .nil, s, s' => by
      intro h
      simp only [resolveMethods] at h
      simp at h
      rw [← h]
  | .cons m rest, s, s' => by
      intro h
      simp only [resolveMethods] at h
      rcases hf : resolveFn m (if m.name.value = "init" then FnKind.init else FnKind.method) s
          with ⟨r, s1⟩
      rw [hf] at h
      rcases r with er | u
      · simp at h
      · simp only at h
        have ih1 := okLenFn m _ s s1 hf
        have ih2 := okLenMethods rest s1 s' h
        rw [ih2, ih1]
end

/-! ### C1: scope balance -/

/-- **C1 (counterexample).** A block whose inner statement fails leaves its
pushed scope on the stack: after visiting `{ x }` (with `x` undeclared) the
scope stack is longer than before the visit, so `begin_scope` is not matched
by `end_scope` on the error exit path. -/
theorem scope_not_balanced_on_error :
    ((resolveStmt (.block (.cons (.exprStmt (.identifier "x" (1, 1))) .nil))
      initState).2).scopes.length ≠ initState.scopes.length := by
  decide

/-- **C1 (amended).** For every statement visit (block, function body,
for-loop, structure body included), the scope stack has the same length
after the visit as before it on every **successful** exit path: each
`begin_scope` is matched by an `end_scope` when the visit returns success.
On error exits the pushed scopes are not popped (see the counterexample). -/
theorem scope_balance_on_success :
    (∀ (st : Stmt) (s s' : RState),
      resolveStmt st s = (.ok (), s') → s'.scopes.length = s.scopes.length) ∧
    (∀ (f : FnDecl) (k : FnKind) (s s' : RState),
      resolveFn f k s = (.ok (), s') → s'.scopes.length = s.scopes.length) :=
  ⟨okLenStmt, okLenFn⟩

theorem scope_balance_on_success_witness :
    ((resolveStmt (.block .nil) initState).2).scopes.length = initState.scopes.length :=
  scope_balance_on_success.1 (.block .nil) initState
    ((resolveStmt (.block .nil) initState).2) rfl

/-! ### C5: locals monotonicity -/

theorem sstepTop : ∀ (stmts : StmtList) (errs : List RevRes) (s : RState),
    SStep (rnodesSL stmts) s ((resolveTop stmts errs s).2)
  | .nil, _, s => SStep.reflS _ s
  | .cons st rest, errs, s => by
      simp only [resolveTop]
      have ih := sstepStmt st s
      rcases hst : resolveStmt st s with ⟨r, s1⟩
      rw [hst] at ih
      rcases r with er | u
      · exact ih.seq (sstepTop rest (errs ++ [er]) s1)
      · exact ih.seq (sstepTop rest errs s1)

/-- **C5.** Throughout any run of `resolve` (from the default resolver state,
on an AST whose resolvable node locations are pairwise distinct, as the
parser produces them), the `locals` output map is monotonic: the complete
write history is consistent, i.e. once an entry `locals[loc] = d` has been
written, no later write stores a different depth for the same `loc`. -/
theorem locals_monotonic (stmts : StmtList)
    (h : ((rnodesSL stmts).map Prod.fst).Nodup) :
    traceOK (((resolve stmts initState).2).locals) := by
  have hstep := sstepTop stmts [] (setGlobals initState)
  rcases hr : resolveTop stmts [] (setGlobals initState) with ⟨errs, s'⟩
  rw [hr] at hstep
  obtain ⟨-, new, hn, -, hok⟩ := hstep
  have hfin : traceOK s'.locals := by
    refine hok h ?_ ?_
    · intro ℓ hm d hmem
      simp [setGlobals, initState] at hmem
    · exact List.Pairwise.nil
  show traceOK ((resolve stmts initState).2).locals
  rw [resolve, hr]
  rcases errs with _ | ⟨e, es⟩
  · simpa using hfin
  · simpa using hfin

theorem locals_monotonic_witness :
    traceOK (((resolve c5Prog initState).2).locals) :=
  locals_monotonic c5Prog (by decide)

/-! ### C7: the synthesized constructor -/

theorem methodsTypesGo_no_init :
    ∀ (ms : FnList) (acc : List (String × VarType)) (b : Bool)
      (m : List (String × VarType)) (hi : Bool),
      noInitMethod ms = true → methodsTypesGo ms acc b = .ok (m, hi) → hi = b
  | .nil, acc, b, m, hi => by
      intro hno h
      simp [methodsTypesGo] at h
      exact h.2.symm
  | .cons mth rest, acc, b, m, hi => by
      intro hno h
      rw [noInitMethod, Bool.and_eq_true] at hno
      rw [methodsTypesGo] at h
      split at h
      · cases h
      · have := methodsTypesGo_no_init rest
          (insertA acc mth.name.value (resolveFnTypeOf mth))
          (b || mth.name.value = "init") m hi hno.2 h
        rw [this]
        have hne : (mth.name.value = "init") = False := by
          simp only [bne_iff_ne, ne_eq] at hno
          simp [hno.1]
        simp [hne]

/-- **C7.** A structure declaration that does not declare an `init` method
records a `StructType` whose `init` entry is the synthesized `Fn() -> Void`;
and calling a structure value whose `init` has type `Fn() -> Void` with
`n ≥ 1` (successfully resolved) arguments fails with `WrongArgsNb(0, n)`. -/
theorem struct_implicit_init_spec :
    (∀ (fields : List VarDeclData) (methods : FnList)
        (fts mts : List (String × VarType)),
      noInitMethod methods = true →
      structMembersTypes fields methods = .ok (fts, mts) →
      lookupA mts "init" = some (.fn .nil .void)) ∧
    (∀ (callee : Expr) (args : ExprList) (loc : Loc) (s s1 s2 : RState) (sn : String)
        (ts : List VarType) (td : StructTypeDef),
      resolveExpr callee s = (.ok (.struct sn), s1) →
      resolveExprList args s1 = (.ok ts, s2) →
      getTypeDef sn loc s2 = .ok td →
      lookupA td.methods "init" = some (.fn .nil .void) →
      1 ≤ args.length →
      resolveExpr (.call callee args loc) s =
        (.error ⟨.wrongArgsNb 0 args.length, some loc⟩, s2)) := by
  constructor
  · intro fields methods fts mts hno h
    rw [structMembersTypes] at h
    rcases hf : fieldsTypesGo fields [] with er | fts0
    · rw [hf] at h; cases h
    · rw [hf] at h
      rcases hm : methodsTypesGo methods [] false with er | mhi
      · rw [hm] at h; cases h
      · rw [hm] at h
        rcases mhi with ⟨mts0, hi⟩
        have hb := methodsTypesGo_no_init methods [] false mts0 hi hno hm
        subst hb
        simp at h
        rw [← h.2]
        simp [insertA, lookupA]
  · intro callee args loc s s1 s2 sn ts td hc ha htd hinit hn
    rw [resolveExpr, hc]
    simp only [ha]
    have hcal : calleeFnType (.struct sn) callee.getLoc loc s2 =
        .ok (VarTypeList.nil, .void) := by
      rw [calleeFnType, htd]
      simp [hinit]
    simp only [hcal]
    rw [if_pos (by show VarTypeList.nil.length ≠ args.length; simp [VarTypeList.length]; omega)]
    rfl

theorem struct_implicit_init_spec_witness :
    lookupA [("init", VarType.fn .nil .void)] "init" = some (.fn .nil .void) ∧
    resolveExpr (.call (.identifier "Foo" (1, 0))
        (.cons (.intLiteral 1 (1, 4)) (.cons (.intLiteral 2 (1, 6)) .nil)) (1, 2)) sFoo =
      (.error ⟨.wrongArgsNb 0 2, some (1, 2)⟩, sFoo) :=
  ⟨struct_implicit_init_spec.1 [] .nil [] [("init", .fn .nil .void)] rfl rfl,
   struct_implicit_init_spec.2 (.identifier "Foo" (1, 0))
     (.cons (.intLiteral 1 (1, 4)) (.cons (.intLiteral 2 (1, 6)) .nil)) (1, 2)
     sFoo sFoo sFoo "Foo" [.int, .int] ⟨"Foo", [], [("init", .fn .nil .void)]⟩
     rfl rfl rfl rfl (by decide)⟩

/-! ### C10: double visits of assignment values and call arguments -/

/-- **C10.** The assignment visitor resolves its value expression twice (once
discarded, once for the type comparison), and the call visitor resolves every
argument twice (the collecting pass and the `try_for_each` pass), so each
warning a sub-expression emits is recorded once per visit; in particular the
concrete program `fn f(b: bool) {}  f(1 < 1.0)` resolves successfully with
the `CompIntFloat` warning recorded twice. -/
theorem double_visit_spec :
    (∀ (nm : String) (v : Expr) (loc : Loc) (s s1 s2 s3 : RState) (t1 lt : VarType)
        (w1 w2 : List ResolverWarning),
      resolveLocal loc nm s = (.ok (), s1) →
      resolveExpr v s1 = (.ok t1, s2) →
      getVarType nm loc s2 = .ok lt →
      resolveExpr v s2 = (.ok lt, s3) →
      s2.warnings = s1.warnings ++ w1 →
      s3.warnings = s2.warnings ++ w2 →
      resolveExpr (.assign nm v loc) s = (.ok lt, s3) ∧
        s3.warnings = s1.warnings ++ w1 ++ w2) ∧
    (∀ (callee : Expr) (args : ExprList) (loc : Loc) (s s1 s2 s3 : RState)
        (ct : VarType) (ts : List VarType) (argsDecl : VarTypeList) (ret : VarType)
        (w1 w2 : List ResolverWarning),
      resolveExpr callee s = (.ok ct, s1) →
      resolveExprList args s1 = (.ok ts, s2) →
      calleeFnType ct callee.getLoc loc s2 = .ok (argsDecl, ret) →
      argsDecl.length = args.length →
      checkArgs ts argsDecl.toList loc = .ok () →
      resolveArgsEach args s2 = (.ok (), s3) →
      s2.warnings = s1.warnings ++ w1 →
      s3.warnings = s2.warnings ++ w2 →
      resolveExpr (.call callee args loc) s = (.ok ct.intoFnReturnType, s3) ∧
        s3.warnings = s1.warnings ++ w1 ++ w2) ∧
    ((resolve c10Prog initState).1 = .ok [] ∧
      ((resolve c10Prog initState).2).warnings = [.compIntFloat, .compIntFloat]) := by
  refine ⟨?_, ?_, rfl, rfl⟩
  · intro nm v loc s s1 s2 s3 t1 lt w1 w2 hloc h1 hget h2 hw1 hw2
    refine ⟨?_, by rw [hw2, hw1, List.append_assoc]⟩
    rw [resolveExpr, hloc]
    simp only [h1, hget, h2]
    simp
  · intro callee args loc s s1 s2 s3 ct ts argsDecl ret w1 w2 hc ha hcal hlen hchk h2 hw1 hw2
    refine ⟨?_, by rw [hw2, hw1, List.append_assoc]⟩
    rw [resolveExpr, hc]
    simp only [ha, hcal]
    rw [if_neg (by rw [hlen]; simp)]
    simp only [hchk, h2]

theorem double_visit_spec_witness :
    (resolveExpr (.assign "a" (.intLiteral 1 (0, 1)) (0, 0)) sVarInt =
      (.ok .int, sVarInt)) ∧
    (resolveExpr (.call (.identifier "g" (0, 0)) (.cons (.intLiteral 1 (0, 2)) .nil) (0, 1))
        sFnG = (.ok .void, sFnG)) := by
  constructor
  · have h := double_visit_spec.1 "a" (.intLiteral 1 (0, 1)) (0, 0)
      sVarInt sVarInt sVarInt sVarInt .int .int [] []
      rfl rfl rfl rfl (by simp) (by simp)
    exact h.1
  · have h := double_visit_spec.2.1 (.identifier "g" (0, 0))
      (.cons (.intLiteral 1 (0, 2)) .nil) (0, 1) sFnG sFnG sFnG sFnG
      (.fn (.cons .int .nil) .void) [.int] (.cons .int .nil) .void [] []
      rfl rfl rfl rfl rfl rfl (by simp) (by simp)
    exact h.1

/-! ### C8: logical expressions -/

/-- **C8.** For a logical (`and`/`or`) expression whose operands resolve to
`tl` and `tr` (the right-hand side is resolved first in the source): when the
two types are equal the expression's type is that type, and when they differ
the visit fails with `WrongTypeLogical` carrying the left-hand-side type in
both error parameters. -/
theorem visit_logical_spec (l r : Expr) (op : Token) (loc : Loc)
    (s s1 s2 : RState) (tr tl : VarType)
    (hr : resolveExpr r s = (.ok tr, s1))
    (hl : resolveExpr l s1 = (.ok tl, s2)) :
    resolveExpr (.logical l op r loc) s =
      (if tl = tr then (.ok tr, s2)
       else (.error ⟨.wrongTypeLogical tl.render tl.render, some loc⟩, s2)) := by
  rw [resolveExpr, hr]
  simp only [hl]
  by_cases h : tl = tr <;> simp [h]

theorem visit_logical_spec_witness :
    resolveExpr (.logical (.intLiteral 1 (0, 0)) (tk "and" (0, 1)) (.floatLiteral (0, 2)) (0, 3))
        initState =
      (.error ⟨.wrongTypeLogical "int" "int", some (0, 3)⟩, initState) := by
  have h := visit_logical_spec (.intLiteral 1 (0, 0)) (.floatLiteral (0, 2)) (tk "and" (0, 1))
    (0, 3) initState initState initState .float .int rfl rfl
  rw [if_neg (by decide)] at h
  exact h

/-! ### C2: which return statement determines the observed return type -/

/-- **C2 (counterexample).** In `fn f() -> int { return 1  return "x" }` the
first `Return` has the declared type `int`, so under the claim the visit
would not fail with `WrongReturnType`; the code compares the *last* valued
`Return` and fails with `WrongReturnType("int", "str")`. -/
theorem first_return_claim_counterexample :
    (resolve c2Prog initState).1 =
      .error [⟨.wrongReturnType "int" "str", some (3, 11)⟩] :=
  rfl

theorem twoRetBody_run (v1 v2 : Lit) (l1 l2 : Loc) (s0 : RState)
    (hfn : s0.fnType = FnKind.function) :
    resolveFnBody (twoRetBody v1 v2 l1 l2) none (0, 0) s0 =
      ((.ok (), some v2.type, v2.loc), pushWarning .unreachAfterReturn s0) := by
  cases v1 <;> cases v2 <;>
    simp [twoRetBody, resolveFnBody, resolveStmt, resolveExpr, Lit.toExpr, Lit.type, Lit.loc,
      Expr.getLoc, hfn, pushWarning]

/-- **C2 (amended).** For a function declaration whose body contains more
than one valued `Return` at the top level of the body, the observed return
type compared against the declared return type is that of the **last**
valued `Return` encountered: for a body `{ return v1  return v2 }` with
literal values and declared return annotation `rtok`, the visit fails with
`WrongReturnType(type(rtok), type(v2))` exactly when `type(v2) ≠ type(rtok)`
— the type of `v1` is irrelevant. -/
theorem resolve_fn_last_return_wins (nameTok rtok : Token) (v1 v2 : Lit) (l1 l2 : Loc)
    (s : RState) :
    ((resolveFn (.mk nameTok [] (some (.identifier rtok)) (twoRetBody v1 v2 l1 l2))
        FnKind.function s).1 =
      if v2.type = varTypeOfToken rtok then .ok ()
      else .error ⟨.wrongReturnType (varTypeOfToken rtok).render v2.type.render,
        some v2.loc⟩) := by
  have hbody := twoRetBody_run v1 v2 l1 l2 (beginScope { s with fnType := FnKind.function })
    (by simp [beginScope])
  rw [resolveFn]
  rw [if_neg (by simp)]
  simp only [declareParams, hbody, varTypeOfDecl]
  by_cases h : v2.type = varTypeOfToken rtok <;> simp [h]

theorem resolve_fn_last_return_wins_witness :
    (resolveFn (.mk (tk "f" (1, 3)) [] (some (.identifier (tk "int" (1, 9))))
        (twoRetBody (.st "x" (2, 11)) (.i 1 (3, 11)) (2, 4) (3, 4)))
      FnKind.function initState).1 = .ok () := by
  have h := resolve_fn_last_return_wins (tk "f" (1, 3)) (tk "int" (1, 9))
    (.st "x" (2, 11)) (.i 1 (3, 11)) (2, 4) (3, 4) initState
  rw [if_pos (by decide)] at h
  exact h

/-! ### C6: unreachable-code warnings and the role of warnings -/

theorem countUnreach_append (a b : List ResolverWarning) :
    countUnreach (a ++ b) = countUnreach a + countUnreach b := by
  simp [countUnreach, List.count_append]

theorem countUnreach_mono {s s' : RState} (h : ∃ w, s'.warnings = s.warnings ++ w) :
    countUnreach s.warnings ≤ countUnreach s'.warnings := by
  rcases h with ⟨w, hw⟩
  rw [hw, countUnreach_append]
  omega

theorem countUnreach_pushWarning (s : RState) :
    countUnreach ((pushWarning .unreachAfterReturn s).warnings) =
      countUnreach s.warnings + 1 := by
  simp [pushWarning, countUnreach]

/-- Once the observed-return accumulator of the body fold is armed, every
remaining statement contributes at least one `UnreachAfterReturn` warning. -/
theorem unreachCount : ∀ (rest : StmtList) (rt : Option VarType) (tl : Loc) (s : RState)
    (u : Unit) (rt' : Option VarType) (tl' : Loc) (s' : RState),
    resolveFnBody rest rt tl s = ((.ok u, rt', tl'), s') → rt.isSome = true →
    countUnreach s.warnings + rest.length ≤ countUnreach s'.warnings
  | .nil, rt, tl, s, u, rt', tl', s' => by
      intro h _
      simp only [resolveFnBody] at h
      cases h
      simp [StmtList.length]
  | .cons st rest, rt, tl, s, u, rt', tl', s' => by
      intro h hsome
      have ihrec := fun (rt2 : Option VarType) (tl2 : Loc) (s2 : RState) (u2 : Unit)
        (rt2' : Option VarType) (tl2' : Loc) (s2' : RState) =>
        unreachCount rest rt2 tl2 s2 u2 rt2' tl2' s2'
      simp only [resolveFnBody] at h
      generalize hgen : (if rt.isSome then pushWarning .unreachAfterReturn s else s) = s0 at h
      have hw0 : countUnreach s.warnings + 1 ≤ countUnreach s0.warnings := by
        rw [← hgen, if_pos hsome, countUnreach_pushWarning]
      split at h
      · rename_i ve rloc
        have hwe := (stepInExpr ve s0).2.2.2.2.1
        rcases he : resolveExpr ve s0 with ⟨re, s1⟩
        rw [he] at h hwe
        dsimp only at hwe
        rcases re with er | t
        · simp at h
        · dsimp only at h
          have hst1 := (sstepStmt (.ret (some ve) rloc) s1).1
          rcases hr : resolveStmt (.ret (some ve) rloc) s1 with ⟨r, s2⟩
          rw [hr] at h hst1
          dsimp only at hst1
          rcases r with er | u1
          · simp at h
          · dsimp only at h
            have hrec := ihrec (some t) ve.getLoc s2 u rt' tl' s' h rfl
            have h01 := countUnreach_mono hwe
            have h12 := countUnreach_mono hst1
            simp only [StmtList.length]
            omega
      · have hst := (sstepStmt st s0).1
        rcases hr : resolveStmt st s0 with ⟨r, s1⟩
        rw [hr] at h hst
        dsimp only at hst
        rcases r with er | u1
        · simp at h
        · dsimp only at h
          have hrec := ihrec rt tl s1 u rt' tl' s' h hsome
          have h01 := countUnreach_mono hst
          simp only [StmtList.length]
          omega

/-- **C6 counterexample.** `fn f() { return  var a }`: the statement after
the value-less `return` produces no warning at all, and the program
resolves successfully. -/
theorem unreach_warning_counterexample :
    (resolve c6Prog initState).1 = .ok [] ∧
    ((resolve c6Prog initState).2).warnings = [] :=
  ⟨rfl, rfl⟩

/-! #### The warnings list is write-only: frame lemmas -/

theorem withW_scopes (W : List ResolverWarning) (s : RState) :
    (withW W s).scopes = s.scopes := rfl

theorem withW_currentStruct (W : List ResolverWarning) (s : RState) :
    (withW W s).currentStruct = s.currentStruct := rfl

theorem withW_fnType (W : List ResolverWarning) (s : RState) :
    (withW W s).fnType = s.fnType := rfl

theorem withW_setStruct (c : Option String) (W : List ResolverWarning) (s : RState) :
    { withW W s with currentStruct := c } = withW W { s with currentStruct := c } := rfl

theorem withW_setFnType (k : FnKind) (W : List ResolverWarning) (s : RState) :
    { withW W s with fnType := k } = withW W { s with fnType := k } := rfl

theorem topScopeDeclaredUninit_withW (W : List ResolverWarning) (s : RState) (n : String) :
    topScopeDeclaredUninit (withW W s) n = topScopeDeclaredUninit s n := rfl

theorem getVarType_withW (n : String) (l : Loc) (W : List ResolverWarning) (s : RState) :
    getVarType n l (withW W s) = getVarType n l s := rfl

theorem getTypeDef_withW (n : String) (l : Loc) (W : List ResolverWarning) (s : RState) :
    getTypeDef n l (withW W s) = getTypeDef n l s := rfl

theorem checkTypeExists_withW (n : String) (l : Loc) (W : List ResolverWarning) (s : RState) :
    checkTypeExists n l (withW W s) = checkTypeExists n l s := rfl

theorem checkTypeTokens_withW : ∀ (ts : List Token) (W : List ResolverWarning) (s : RState),
    checkTypeTokens ts (withW W s) = checkTypeTokens ts s
  | [], _, _ => rfl
  | t :: rest, W, s => by
      rw [checkTypeTokens, checkTypeTokens, checkTypeExists_withW]
      rcases checkTypeExists t.value t.loc s with e | u
      · rfl
      · exact checkTypeTokens_withW rest W s

theorem calleeFnType_withW (t : VarType) (cl ll : Loc) (W : List ResolverWarning)
    (s : RState) : calleeFnType t cl ll (withW W s) = calleeFnType t cl ll s := rfl

theorem frame_pushWarning (x : ResolverWarning) (W : List ResolverWarning) (s : RState) :
    pushWarning x (withW W s) = withW (W ++ [x]) (pushWarning x s) := rfl

theorem frame_beginScope (W : List ResolverWarning) (s : RState) :
    beginScope (withW W s) = withW W (beginScope s) := rfl

theorem frame_endScope (W : List ResolverWarning) (s : RState) :
    endScope (withW W s) = withW W (endScope s) := rfl

theorem frame_setGlobals (W : List ResolverWarning) (s : RState) :
    setGlobals (withW W s) = withW W (setGlobals s) := rfl

theorem frame_defineName (n : String) (W : List ResolverWarning) (s : RState) :
    defineName n (withW W s) = withW W (defineName n s) := by
  rcases s with ⟨g, sc, lo, ft, cs, ws⟩
  unfold defineName withW
  cases sc <;> rfl

theorem frame_initVarType (n : String) (vt : VarType) (W : List ResolverWarning)
    (s : RState) : initVarType n vt (withW W s) = withW W (initVarType n vt s) := by
  rcases s with ⟨g, sc, lo, ft, cs, ws⟩
  unfold initVarType withW
  cases sc <;> rfl

theorem frame_insertSelf (W : List ResolverWarning) (s : RState) :
    insertSelf (withW W s) = withW W (insertSelf s) := by
  rcases s with ⟨g, sc, lo, ft, cs, ws⟩
  unfold insertSelf withW
  cases sc <;> rfl

theorem frame_defineAndInit (n : String) (vt : VarType) (W : List ResolverWarning)
    (s : RState) : defineAndInit n vt (withW W s) = withW W (defineAndInit n vt s) := by
  rw [defineAndInit, defineAndInit, frame_defineName, frame_initVarType]

theorem frame_updateVarType (n : String) (vt : VarType) (l : Loc)
    (W : List ResolverWarning) (s : RState) :
    updateVarType n vt l (withW W s) = withW W (updateVarType n vt l s) := by
  rcases s with ⟨g, sc, lo, ft, cs, ws⟩
  unfold updateVarType withW
  dsimp only
  rcases lookupA lo l with _ | depth
  · rfl
  · dsimp only
    rcases sc[depth]? with _ | scd <;> rfl

theorem frame_resolveLocal (l : Loc) (n : String) (W : List ResolverWarning) (s : RState) :
    resolveLocal l n (withW W s) =
      ((resolveLocal l n s).1, withW W ((resolveLocal l n s).2)) := by
  rcases s with ⟨g, sc, lo, ft, cs, ws⟩
  unfold resolveLocal withW
  dsimp only
  rcases resolveLocalScan n 0 sc with _ | idx
  · dsimp only
    by_cases hc : containsA g.vars n <;> simp [hc]
  · rfl

theorem frame_declareName (n : String) (l : Loc) (t : String) (W : List ResolverWarning)
    (s : RState) :
    declareName n l t (withW W s) =
      ((declareName n l t s).1, withW W ((declareName n l t s).2)) := by
  rcases s with ⟨g, sc, lo, ft, cs, ws⟩
  unfold declareName withW
  cases sc <;> dsimp only
  · by_cases hc : containsA g.vars n <;> simp [hc]
  · rename_i top rest
    by_cases hc : containsA top.vars n <;> simp [hc]

theorem frame_declareType (td : StructTypeDef) (l : Loc) (W : List ResolverWarning)
    (s : RState) :
    declareType td l (withW W s) =
      ((declareType td l s).1, withW W ((declareType td l s).2)) := by
  rcases s with ⟨g, sc, lo, ft, cs, ws⟩
  unfold declareType withW
  cases sc <;> dsimp only
  · by_cases hc : containsA g.typesDef td.name <;> simp [hc]
  · rename_i top rest
    by_cases hc : containsA top.typesDef td.name <;> simp [hc]

theorem frame_declareParams : ∀ (ps : List Param) (t : Token) (W : List ResolverWarning)
    (s : RState),
    declareParams ps t (withW W s) =
      ((declareParams ps t s).1, withW W ((declareParams ps t s).2))
  | [], _, _, _ => rfl
  | p :: rest, t, W, s => by
      rw [declareParams, declareParams, frame_declareName]
      rcases hd : declareName p.name.value t.loc "variable" s with ⟨r, s1⟩
      dsimp only
      rcases r with er | u
      · rfl
      · dsimp only
        rw [frame_defineName, frame_initVarType]
        exact frame_declareParams rest t W _

theorem warnings_resolveLocal (l : Loc) (n : String) (s : RState) :
    ((resolveLocal l n s).2).warnings = s.warnings := by
  unfold resolveLocal
  rcases resolveLocalScan n 0 s.scopes with _ | idx
  · dsimp only
    by_cases hc : containsA s.globals.vars n <;> simp [hc]
  · rfl

theorem warnings_declareName (n : String) (l : Loc) (t : String) (s : RState) :
    ((declareName n l t s).2).warnings = s.warnings := by
  unfold declareName
  rcases s.scopes with _ | ⟨top, rest⟩ <;> dsimp only
  · by_cases hc : containsA s.globals.vars n <;> simp [hc]
  · by_cases hc : containsA top.vars n <;> simp [hc]

theorem warnings_declareType (td : StructTypeDef) (l : Loc) (s : RState) :
    ((declareType td l s).2).warnings = s.warnings := by
  unfold declareType
  rcases s.scopes with _ | ⟨top, rest⟩ <;> dsimp only
  · by_cases hc : containsA s.globals.typesDef td.name <;> simp [hc]
  · by_cases hc : containsA top.typesDef td.name <;> simp [hc]

theorem warnings_defineName (n : String) (s : RState) :
    (defineName n s).warnings = s.warnings := by
  unfold defineName
  rcases s.scopes with _ | ⟨top, rest⟩ <;> rfl

theorem warnings_initVarType (n : String) (vt : VarType) (s : RState) :
    (initVarType n vt s).warnings = s.warnings := by
  unfold initVarType
  rcases s.scopes with _ | ⟨top, rest⟩ <;> rfl

theorem warnings_insertSelf (s : RState) :
    (insertSelf s).warnings = s.warnings := by
  unfold insertSelf
  rcases s.scopes with _ | ⟨top, rest⟩ <;> rfl

theorem warnings_updateVarType (n : String) (vt : VarType) (l : Loc) (s : RState) :
    (updateVarType n vt l s).warnings = s.warnings := by
  unfold updateVarType
  rcases lookupA s.locals l with _ | depth
  · rfl
  · dsimp only
    rcases s.scopes[depth]? with _ | sc <;> rfl

theorem warnings_defineAndInit (n : String) (vt : VarType) (s : RState) :
    (defineAndInit n vt s).warnings = s.warnings := by
  rw [defineAndInit, warnings_initVarType, warnings_defineName]

theorem warnings_declareParams : ∀ (ps : List Param) (t : Token) (s : RState),
    ((declareParams ps t s).2).warnings = s.warnings
  | [], _, _ => rfl
  | p :: rest, t, s => by
      rw [declareParams]
      rcases hd : declareName p.name.value t.loc "variable" s with ⟨r, s1⟩
      have hw := warnings_declareName p.name.value t.loc "variable" s
      rw [hd] at hw
      dsimp only at hw
      rcases r with er | u
      · exact hw
      · dsimp only
        rw [warnings_declareParams rest t _, warnings_initVarType, warnings_defineName]
        exact hw

theorem frame_binaryResult (lhs rhs : VarType) (op : Token) (l : Loc)
    (w : List ResolverWarning) (s : RState) :
    binaryResult lhs rhs op l (withW (w ++ s.warnings) s) =
      ((binaryResult lhs rhs op l s).1,
        withW (w ++ ((binaryResult lhs rhs op l s).2).warnings)
          ((binaryResult lhs rhs op l s).2)) := by
  rcases op with ⟨kind, value, oloc⟩
  rcases kind <;> rcases lhs <;> rcases rhs <;>
    first
      | rfl
      | exact congrArg (Prod.mk (Except.ok VarType.bool))
          (congrArg (fun W => withW W s)
            (List.append_assoc w s.warnings [ResolverWarning.compIntFloat]))

mutual
/-- Expression resolution never reads the warnings list: running from a
state whose warnings carry an extra prefix `w` gives the same result and the
same final state, with the same prefix `w` on its warnings. -/
theorem frameExpr : ∀ (e : Expr) (w : List ResolverWarning) (s : RState),
    resolveExpr e (withW (w ++ s.warnings) s) =
      ((resolveExpr e s).1,
        withW (w ++ ((resolveExpr e s).2).warnings) ((resolveExpr e s).2))
  | .intLiteral _ _, _, _ => rfl
  | .floatLiteral _, _, _ => rfl
  | .strLiteral _ _, _, _ => rfl
  | .identifier name loc, w, s => by
      simp only [resolveExpr, topScopeDeclaredUninit_withW]
      by_cases ht : topScopeDeclaredUninit s name
      · rw [if_pos ht, if_pos ht]
      · rw [if_neg ht, if_neg ht, frame_resolveLocal]
        rcases h0 : resolveLocal loc name s with ⟨r0, s1⟩
        have hw1 := warnings_resolveLocal loc name s
        rw [h0] at hw1
        dsimp only at hw1
        dsimp only
        rcases r0 with er | u
        · rw [hw1]
        · rw [← hw1]
          dsimp only
          rw [getVarType_withW]
          rcases hg : getVarType name loc s1 with er | t <;> rfl
  | .unary op rr ℓ, w, s => by
      simp only [resolveExpr]
      rw [frameExpr rr w s]
      rcases hr : resolveExpr rr s with ⟨res, s1⟩
      dsimp only
      rcases res with er | vt
      · rfl
      · dsimp only
        rcases op.kind <;> (try dsimp only) <;> first | rfl | (split <;> rfl)
  | .binary l op rr ℓ, w, s => by
      simp only [resolveExpr]
      rw [frameExpr l w s]
      rcases hl : resolveExpr l s with ⟨resl, s1⟩
      dsimp only
      rcases resl with er | lt
      · rfl
      · dsimp only
        rw [frameExpr rr w s1]
        rcases hr : resolveExpr rr s1 with ⟨resr, s2⟩
        dsimp only
        rcases resr with er | rt
        · rfl
        · dsimp only
          rw [frame_binaryResult]
  | .grouping inner ℓ, w, s => by
      simp only [resolveExpr]
      exact frameExpr inner w s
  | .assign name value loc, w, s => by
      simp only [resolveExpr]
      rw [frame_resolveLocal]
      rcases h0 : resolveLocal loc name s with ⟨r0, s1⟩
      have hw1 := warnings_resolveLocal loc name s
      rw [h0] at hw1
      dsimp only at hw1
      dsimp only
      rcases r0 with er | u
      · rw [hw1]
      · rw [← hw1]
        dsimp only
        rw [frameExpr value w s1]
        rcases h1 : resolveExpr value s1 with ⟨r1, s2⟩
        dsimp only
        rcases r1 with er | t1
        · rfl
        · dsimp only
          rw [getVarType_withW]
          rcases hg : getVarType name loc s2 with er | lt
          · rfl
          · dsimp only
            rw [frameExpr value w s2]
            rcases h2 : resolveExpr value s2 with ⟨r2, s3⟩
            dsimp only
            rcases r2 with er | t2
            · rfl
            · dsimp only
              split
              · split
                · rw [frame_updateVarType, warnings_updateVarType]
                · split <;> rfl
              · rfl
  | .logical l op rr loc, w, s => by
      simp only [resolveExpr]
      rw [frameExpr rr w s]
      rcases hr : resolveExpr rr s with ⟨resr, s1⟩
      dsimp only
      rcases resr with er | rt
      · rfl
      · dsimp only
        rw [frameExpr l w s1]
        rcases hl : resolveExpr l s1 with ⟨resl, s2⟩
        dsimp only
        rcases resl with er | lt
        · rfl
        · dsimp only
          split <;> rfl
  | .call callee args loc, w, s => by
      simp only [resolveExpr]
      rw [frameExpr callee w s]
      rcases hc : resolveExpr callee s with ⟨resc, s1⟩
      dsimp only
      rcases resc with er | ct
      · rfl
      · dsimp only
        rw [frameExprList args w s1]
        rcases ha : resolveExprList args s1 with ⟨resa, s2⟩
        dsimp only
        rcases resa with er | ts
        · rfl
        · dsimp only
          rw [calleeFnType_withW]
          rcases hf : calleeFnType ct callee.getLoc loc s2 with er | fd
          · rfl
          · dsimp only
            rcases fd with ⟨argsDecl, ret⟩
            split
            · rfl
            · rcases hchk : checkArgs ts argsDecl.toList loc with er | u
              · rfl
              · dsimp only
                rw [frameArgsEach args w s2]
                rcases h2 : resolveArgsEach args s2 with ⟨r2, s3⟩
                dsimp only
                rcases r2 with er | u2 <;> rfl
  | .getE obj name loc, w, s => by
      simp only [resolveExpr]
      split
      · rfl
      · rw [frameExpr obj w s]
        rcases ho : resolveExpr obj s with ⟨res, s1⟩
        dsimp only
        rcases res with er | ot
        · rfl
        · dsimp only
          rcases ot <;> try rfl
          rename_i sn
          dsimp only
          rw [getTypeDef_withW]
          rcases ht : getTypeDef sn loc s1 with er | td <;> rfl
  | .setE obj name value loc, w, s => by
      simp only [resolveExpr]
      rw [frameExpr obj w s]
      rcases ho : resolveExpr obj s with ⟨res, s1⟩
      dsimp only
      rcases res with er | ot
      · rfl
      · dsimp only
        rw [frameExpr value w s1]
        rcases hv : resolveExpr value s1 with ⟨resv, s2⟩
        dsimp only
        rcases resv with er | vt
        · rfl
        · dsimp only
          rcases ot <;> try rfl
          rename_i sn
          dsimp only
          rw [getTypeDef_withW]
          rcases ht : getTypeDef sn loc s2 with er | td
          · rfl
          · dsimp only
            rcases hm : getMemberType td name with er | mt
            · rfl
            · dsimp only
              split <;> rfl
  | .selfE name loc, w, s => by
      simp only [resolveExpr, withW_currentStruct]
      rcases hcs : s.currentStruct with _ | cs
      · rfl
      · dsimp only
        rw [frame_resolveLocal]
        rcases hr : resolveLocal loc name s with ⟨r, s1⟩
        have hw1 := warnings_resolveLocal loc name s
        rw [hr] at hw1
        dsimp only at hw1
        dsimp only
        rcases r with er | u <;> rw [hw1]
  | .isE l typ loc, w, s => by
      simp only [resolveExpr]
      rw [frameExpr l w s]
      rcases hl : resolveExpr l s with ⟨res, s1⟩
      dsimp only
      rcases res with er | lt
      · rfl
      · dsimp only
        rw [checkTypeExists_withW]
        rcases hc : checkTypeExists typ.value loc s1 with er | u
        · rfl
        · dsimp only
          split <;> rfl
theorem frameExprList : ∀ (es : ExprList) (w : List ResolverWarning) (s : RState),
    resolveExprList es (withW (w ++ s.warnings) s) =
      ((resolveExprList es s).1,
        withW (w ++ ((resolveExprList es s).2).warnings) ((resolveExprList es s).2))
  | .nil, _, _ => rfl
  | .cons e rest, w, s => by
      simp only [resolveExprList]
      rw [frameExpr e w s]
      rcases he : resolveExpr e s with ⟨r, s1⟩
      dsimp only
      rcases r with er | t
      · rfl
      · dsimp only
        rw [frameExprList rest w s1]
        rcases hr : resolveExprList rest s1 with ⟨rr, s2⟩
        dsimp only
        rcases rr with er | ts <;> rfl
theorem frameArgsEach : ∀ (es : ExprList) (w : List ResolverWarning) (s : RState),
    resolveArgsEach es (withW (w ++ s.warnings) s) =
      ((resolveArgsEach es s).1,
        withW (w ++ ((resolveArgsEach es s).2).warnings) ((resolveArgsEach es s).2))
  | .nil, _, _ => rfl
  | .cons e rest, w, s => by
      simp only [resolveArgsEach]
      rw [frameExpr e w s]
      rcases he : resolveExpr e s with ⟨r, s1⟩
      dsimp only
      rcases r with er | t
      · rfl
      · dsimp only
        exact frameArgsEach rest w s1
end

theorem warnings_beginScope (s : RState) : (beginScope s).warnings = s.warnings := rfl

theorem warnings_endScope (s : RState) : (endScope s).warnings = s.warnings := rfl

theorem frame_resolveVarDecl (d : VarDeclData) (w : List ResolverWarning) (s : RState) :
    resolveVarDecl d (withW (w ++ s.warnings) s) =
      ((resolveVarDecl d s).1,
        withW (w ++ ((resolveVarDecl d s).2).warnings) ((resolveVarDecl d s).2)) := by
  simp only [resolveVarDecl]
  rw [frame_declareName]
  rcases hd : declareName d.name.value d.name.loc "variable" s with ⟨r, s1⟩
  have hw1 := warnings_declareName d.name.value d.name.loc "variable" s
  rw [hd] at hw1
  dsimp only at hw1
  dsimp only
  rcases r with er | u
  · rw [hw1]
  · rw [← hw1]
    dsimp only
    simp only [checkTypeExists_withW, checkTypeTokens_withW]
    split
    · rfl
    · split
      · rename_i v hv
        rw [frameExpr v w s1]
        rcases he : resolveExpr v s1 with ⟨rv, s2⟩
        dsimp only
        rcases rv with er | vt
        · rfl
        · dsimp only
          split
          · split
            · rfl
            · rw [frame_defineAndInit, warnings_defineAndInit]
          · rw [frame_defineAndInit, warnings_defineAndInit]
      · rw [frame_defineAndInit, warnings_defineAndInit]

mutual
/-- Statement resolution never reads the warnings list. -/
theorem frameStmt : ∀ (st : Stmt) (w : List ResolverWarning) (s : RState),
    resolveStmt st (withW (w ++ s.warnings) s) =
      ((resolveStmt st s).1,
        withW (w ++ ((resolveStmt st s).2).warnings) ((resolveStmt st s).2))
  | .exprStmt e, w, s => by
      simp only [resolveStmt]
      rw [frameExpr e w s]
      rcases he : resolveExpr e s with ⟨r, s1⟩
      dsimp only
      rcases r with er | t <;> rfl
  | .print e, w, s => by
      simp only [resolveStmt]
      rw [frameExpr e w s]
      rcases he : resolveExpr e s with ⟨r, s1⟩
      dsimp only
      rcases r with er | t <;> rfl
  | .varDecl d, w, s => by
      simp only [resolveStmt]
      exact frame_resolveVarDecl d w s
  | .block stmts, w, s => by
      simp only [resolveStmt]
      rw [frame_beginScope, ← warnings_beginScope s, frameStmts stmts w (beginScope s)]
      rcases hb : resolveStmts stmts (beginScope s) with ⟨r, s1⟩
      dsimp only
      rcases r with er | u
      · rfl
      · dsimp only
        rw [frame_endScope, warnings_endScope]
  | .ifStmt c t e, w, s => by
      simp only [resolveStmt]
      rw [frameExpr c w s]
      rcases hc : resolveExpr c s with ⟨r, s1⟩
      dsimp only
      rcases r with er | ct
      · rfl
      · dsimp only
        rw [frameOptStmt t w s1]
        rcases ht : resolveOptStmt t s1 with ⟨rt, s2⟩
        dsimp only
        rcases rt with er | u
        · rfl
        · dsimp only
          exact frameOptStmt e w s2
  | .whileStmt c b, w, s => by
      simp only [resolveStmt]
      rw [frameExpr c w s]
      rcases hc : resolveExpr c s with ⟨r, s1⟩
      dsimp only
      rcases r with er | ct
      · rfl
      · dsimp only
        exact frameStmt b w s1
  | .forStmt ph b, w, s => by
      simp only [resolveStmt]
      rw [frame_beginScope, ← warnings_beginScope s, frame_resolveVarDecl]
      rcases hp : resolveVarDecl ph (beginScope s) with ⟨r, s2⟩
      dsimp only
      rcases r with er | u
      · rfl
      · dsimp only
        rw [frame_initVarType, ← warnings_initVarType ph.name.value VarType.int s2,
          frameStmt b w (initVarType ph.name.value VarType.int s2)]
        rcases hb : resolveStmt b (initVarType ph.name.value VarType.int s2) with ⟨rb, s4⟩
        dsimp only
        rcases rb with er | u2
        · rfl
        · dsimp only
          rw [frame_endScope, warnings_endScope]
  | .fnDeclStmt f, w, s => by
      simp only [resolveStmt]
      rw [frame_declareName]
      rcases hd : declareName f.name.value f.name.loc "function" s with ⟨r, s1⟩
      have hw1 := warnings_declareName f.name.value f.name.loc "function" s
      rw [hd] at hw1
      dsimp only at hw1
      dsimp only
      rcases r with er | u
      · rw [hw1]
      · rw [← hw1]
        dsimp only
        rw [frame_defineName, frame_initVarType,
          ← warnings_defineName f.name.value s1,
          ← warnings_initVarType f.name.value (resolveFnTypeOf f) (defineName f.name.value s1)]
        exact frameFn f .function w _
  | .ret v loc, w, s => by
      simp only [resolveStmt, withW_fnType]
      cases hk : s.fnType
      case none => rfl
      case init => rfl
      case function =>
        rcases v with _ | ve
        · rfl
        · dsimp only
          rw [frameExpr ve w s]
          rcases he : resolveExpr ve s with ⟨r, s1⟩
          dsimp only
          rcases r with er | t <;> rfl
      case method =>
        rcases v with _ | ve
        · rfl
        · dsimp only
          rw [frameExpr ve w s]
          rcases he : resolveExpr ve s with ⟨r, s1⟩
          dsimp only
          rcases r with er | t <;> rfl
  | .structDecl name fields methods, w, s => by
      simp only [resolveStmt]
      rw [withW_setStruct,
        show s.warnings = ({ s with currentStruct := some name.value } : RState).warnings
          from rfl,
        frame_declareName]
      rcases hd : declareName name.value name.loc "structure"
          { s with currentStruct := some name.value } with ⟨r, s1⟩
      have hw1 := warnings_declareName name.value name.loc "structure"
        { s with currentStruct := some name.value }
      rw [hd] at hw1
      dsimp only at hw1
      dsimp only
      rcases r with er | u
      · rw [hw1]
      · dsimp only
        rw [← hw1]
        split
        · rw [frame_defineName, warnings_defineName]
        · rename_i fts mts hsm
          rw [frame_defineName, ← warnings_defineName name.value s1, frame_declareType]
          rcases ht : declareType ⟨name.value, fts, mts⟩ name.loc (defineName name.value s1)
              with ⟨r3, s3⟩
          have hw3 := warnings_declareType ⟨name.value, fts, mts⟩ name.loc
            (defineName name.value s1)
          rw [ht] at hw3
          dsimp only at hw3
          dsimp only
          rcases r3 with er | u3
          · rw [hw3]
          · rw [← hw3]
            dsimp only
            rw [frame_beginScope, frame_insertSelf,
              ← warnings_beginScope s3, ← warnings_insertSelf (beginScope s3),
              frameMethods methods w (insertSelf (beginScope s3))]
            rcases hm : resolveMethods methods (insertSelf (beginScope s3)) with ⟨r5, s5⟩
            dsimp only
            rcases r5 with er | u5
            · rfl
            · dsimp only
              rw [frame_endScope, withW_setStruct, warnings_endScope]
theorem frameOptStmt : ∀ (os : OptStmt) (w : List ResolverWarning) (s : RState),
    resolveOptStmt os (withW (w ++ s.warnings) s) =
      ((resolveOptStmt os s).1,
        withW (w ++ ((resolveOptStmt os s).2).warnings) ((resolveOptStmt os s).2))
  | .noneS, _, _ => rfl
  | .someS st, w, s => by
      simp only [resolveOptStmt]
      exact frameStmt st w s
theorem frameStmts : ∀ (sl : StmtList) (w : List ResolverWarning) (s : RState),
    resolveStmts sl (withW (w ++ s.warnings) s) =
      ((resolveStmts sl s).1,
        withW (w ++ ((resolveStmts sl s).2).warnings) ((resolveStmts sl s).2))
  | .nil, _, _ => rfl
  | .cons st rest, w, s => by
      simp only [resolveStmts]
      rw [frameStmt st w s]
      rcases hst : resolveStmt st s with ⟨r, s1⟩
      dsimp only
      rcases r with er | u
      · rfl
      · dsimp only
        exact frameStmts rest w s1
theorem frameFn : ∀ (f : FnDecl) (k : FnKind) (w : List ResolverWarning) (s : RState),
    resolveFn f k (withW (w ++ s.warnings) s) =
      ((resolveFn f k s).1,
        withW (w ++ ((resolveFn f k s).2).warnings) ((resolveFn f k s).2))
  | .mk nameTok params retT body, k, w, s => by
      simp only [resolveFn, withW_fnType]
      split
      · rfl
      · rw [withW_setFnType, frame_beginScope,
          show withW (w ++ s.warnings) (beginScope { s with fnType := k }) =
            withW (w ++ (beginScope { s with fnType := k }).warnings)
              (beginScope { s with fnType := k }) from rfl,
          frame_declareParams]
        rcases hp : declareParams params nameTok (beginScope { s with fnType := k })
            with ⟨rp, s2⟩
        have hwp := warnings_declareParams params nameTok (beginScope { s with fnType := k })
        rw [hp] at hwp
        dsimp only at hwp
        (try dsimp only)
        rcases rp with er | u
        · rw [hwp]
        · rw [← hwp]
          dsimp only
          rw [frameFnBody body none (0, 0) w s2]
          rcases hb : resolveFnBody body none (0, 0) s2 with ⟨⟨rb, rt, tl2⟩, s3⟩
          dsimp only
          rcases rb with er | u2
          · rfl
          · dsimp only
            rcases rt with _ | r1 <;> rcases retT with _ | r2 <;> (try dsimp only)
            · rw [frame_endScope, withW_setFnType, warnings_endScope]
            · split
              · rfl
              · rw [frame_endScope, withW_setFnType, warnings_endScope]
            · split
              · rfl
              · rw [frame_endScope, withW_setFnType, warnings_endScope]
            · split
              · rfl
              · rw [frame_endScope, withW_setFnType, warnings_endScope]
theorem frameFnBody : ∀ (body : StmtList) (rt : Option VarType) (tl : Loc)
    (w : List ResolverWarning) (s : RState),
    resolveFnBody body rt tl (withW (w ++ s.warnings) s) =
      ((resolveFnBody body rt tl s).1,
        withW (w ++ ((resolveFnBody body rt tl s).2).warnings)
          ((resolveFnBody body rt tl s).2))
  | .nil, _, _, _, _ => rfl
  | .cons st rest, rt, tl, w, s => by
      have ihst := fun (s' : RState) => frameStmt st w s'
      have ihrest := fun (rt' : Option VarType) (tl' : Loc) (s' : RState) =>
        frameFnBody rest rt' tl' w s'
      simp only [resolveFnBody]
      rcases rt with _ | rv
      · simp only [Option.isSome_none, Bool.false_eq_true, if_false]
        split
        · rename_i ve rloc
          rw [frameExpr ve w s]
          rcases he : resolveExpr ve s with ⟨re, s1⟩
          dsimp only
          rcases re with er | t
          · rfl
          · dsimp only
            rw [ihst s1]
            rcases hr : resolveStmt (.ret (some ve) rloc) s1 with ⟨rs, s2⟩
            dsimp only
            rcases rs with er | u1
            · rfl
            · dsimp only
              exact ihrest (some t) ve.getLoc s2
        · rw [ihst s]
          rcases hr : resolveStmt st s with ⟨rs, s1⟩
          dsimp only
          rcases rs with er | u1
          · rfl
          · dsimp only
            exact ihrest none tl s1
      · simp only [Option.isSome_some, if_true]
        rw [frame_pushWarning, List.append_assoc,
          show s.warnings ++ [ResolverWarning.unreachAfterReturn] =
            (pushWarning ResolverWarning.unreachAfterReturn s).warnings from rfl]
        split
        · rename_i ve rloc
          rw [frameExpr ve w (pushWarning .unreachAfterReturn s)]
          rcases he : resolveExpr ve (pushWarning .unreachAfterReturn s) with ⟨re, s1⟩
          dsimp only
          rcases re with er | t
          · rfl
          · dsimp only
            rw [ihst s1]
            rcases hr : resolveStmt (.ret (some ve) rloc) s1 with ⟨rs, s2⟩
            dsimp only
            rcases rs with er | u1
            · rfl
            · dsimp only
              exact ihrest (some t) ve.getLoc s2
        · rw [ihst (pushWarning .unreachAfterReturn s)]
          rcases hr : resolveStmt st (pushWarning .unreachAfterReturn s) with ⟨rs, s1⟩
          dsimp only
          rcases rs with er | u1
          · rfl
          · dsimp only
            exact ihrest (some rv) tl s1
theorem frameMethods : ∀ (ms : FnList) (w : List ResolverWarning) (s : RState),
    resolveMethods ms (withW (w ++ s.warnings) s) =
      ((resolveMethods ms s).1,
        withW (w ++ ((resolveMethods ms s).2).warnings) ((resolveMethods ms s).2))
  | .nil, _, _ => rfl
  | .cons m rest, w, s => by
      simp only [resolveMethods]
      rw [frameFn m (if m.name.value = "init" then FnKind.init else FnKind.method) w s]
      rcases hf : resolveFn m (if m.name.value = "init" then FnKind.init else FnKind.method) s
          with ⟨r, s1⟩
      dsimp only
      rcases r with er | u
      · rfl
      · dsimp only
        exact frameMethods rest w s1
end

theorem frame_resolveTop : ∀ (stmts : StmtList) (errs : List RevRes)
    (w : List ResolverWarning) (s : RState),
    resolveTop stmts errs (withW (w ++ s.warnings) s) =
      ((resolveTop stmts errs s).1,
        withW (w ++ ((resolveTop stmts errs s).2).warnings) ((resolveTop stmts errs s).2))
  | .nil, _, _, _ => rfl
  | .cons st rest, errs, w, s => by
      simp only [resolveTop]
      rw [frameStmt st w s]
      rcases hst : resolveStmt st s with ⟨r, s1⟩
      dsimp only
      rcases r with er | u
      · exact frame_resolveTop rest (errs ++ [er]) w s1
      · exact frame_resolveTop rest errs w s1

theorem frame_resolve (stmts : StmtList) (w : List ResolverWarning) (s : RState) :
    resolve stmts (withW (w ++ s.warnings) s) =
      ((resolve stmts s).1,
        withW (w ++ ((resolve stmts s).2).warnings) ((resolve stmts s).2)) := by
  simp only [resolve]
  rw [frame_setGlobals, show s.warnings = (setGlobals s).warnings from rfl,
    frame_resolveTop]
  rcases ht : resolveTop stmts [] (setGlobals s) with ⟨errs, s1⟩
  dsimp only
  split <;> rfl

/-- **C6 (amended).** In the body fold of `resolve_fn`, the
`UnreachAfterReturn` warning is armed only by a `Return` **with a value**:
once a valued `Return` has been folded, every remaining statement of the
body pushes at least one `UnreachAfterReturn` warning (a value-less
`Return` arms nothing — see the counterexample). Warnings are accumulated
separately and never cause the pass to fail: the resolver never reads the
warnings list, so prefixing the initial warnings leaves the outcome of
`resolve` unchanged and only prefixes the final warnings list. -/
theorem unreach_after_valued_return :
    (∀ (v : Expr) (ℓ : Loc) (bs2 : StmtList) (tl : Loc) (s : RState) (u : Unit)
        (rt' : Option VarType) (tl' : Loc) (s' : RState),
      resolveFnBody (.cons (.ret (some v) ℓ) bs2) none tl s = ((.ok u, rt', tl'), s') →
      countUnreach s.warnings + bs2.length ≤ countUnreach s'.warnings) ∧
    (∀ (stmts : StmtList) (w : List ResolverWarning) (s : RState)
        (r : Except (List RevRes) (List (Loc × Nat))) (s' : RState),
      resolve stmts s = (r, s') →
      resolve stmts (withW (w ++ s.warnings) s) = (r, withW (w ++ s'.warnings) s')) := by
  constructor
  · intro v ℓ bs2 tl s u rt' tl' s' h
    simp only [resolveFnBody] at h
    rw [if_neg (by simp)] at h
    have hwe := (stepInExpr v s).2.2.2.2.1
    rcases he : resolveExpr v s with ⟨re, s1⟩
    rw [he] at h hwe
    dsimp only at hwe
    rcases re with er | t
    · simp at h
    · dsimp only at h
      have hst1 := (sstepStmt (.ret (some v) ℓ) s1).1
      rcases hr : resolveStmt (.ret (some v) ℓ) s1 with ⟨rs, s2⟩
      rw [hr] at h hst1
      dsimp only at hst1
      rcases rs with er | u1
      · simp at h
      · dsimp only at h
        have hrec := unreachCount bs2 (some t) v.getLoc s2 u rt' tl' s' h rfl
        have h01 := countUnreach_mono hwe
        have h12 := countUnreach_mono hst1
        omega
  · intro stmts w s r s' h
    have hf := frame_resolve stmts w s
    rw [h] at hf
    exact hf

theorem unreach_after_valued_return_witness :
    (resolveFnBody c6Body none (0, 0) c6In = ((.ok (), some .int, (1, 9)), c6BodyOut) ∧
      countUnreach c6In.warnings +
        (StmtList.cons (.varDecl ⟨tk "a" (2, 6), none, none⟩) .nil).length ≤
        countUnreach c6BodyOut.warnings) ∧
    (resolve c6Prog initState = (.ok [], c6OutState) ∧
      resolve c6Prog (withW ([.unreachAfterReturn] ++ initState.warnings) initState) =
        (.ok [], withW ([.unreachAfterReturn] ++ c6OutState.warnings) c6OutState)) :=
  ⟨⟨rfl, unreach_after_valued_return.1 (.intLiteral 1 (1, 9)) (1, 2)
      (.cons (.varDecl ⟨tk "a" (2, 6), none, none⟩) .nil) (0, 0) c6In () (some .int) (1, 9)
      c6BodyOut rfl⟩,
   ⟨rfl, unreach_after_valued_return.2 c6Prog [.unreachAfterReturn] initState
      (.ok []) c6OutState rfl⟩⟩

end Rizon
